import Mathlib

/-!
Verification model of `django_querysets_single_query_fetch/service.py`.

The development shallowly embeds the service's data flow: parameter literal
encoding, per-queryset SQL fragment compilation, the single combined
`json_build_object` statement, and the rehydration of JSON rows back into
typed results (model instances with related objects, values rows, scalar
lists, counts, first-or-none values and aggregate mappings).

External collaborators (the Django ORM compiler, the psycopg driver and the
PostgreSQL engine) are modelled at their interface boundary: a queryset
carries the compiled SQL outcome and the rows its query materializes, JSON
numbers travel as exact decimal text, and the driver string-quoting
primitive is standard SQL quote doubling.
-/

namespace SQFetch

/-! ## Decimal text: digits, printing and parsing

Model of the decimal literals that travel between Python and PostgreSQL:
`str()` of numbers, `Decimal(...)` construction, and JSON number text.
-/

/-- The character for a single decimal digit. -/
def digitChar (d : Nat) : Char := Char.ofNat (48 + d)

/-- Big-endian decimal digits of `n`, with explicit fuel so that the
definition is structural and computes by `rfl`.  Empty for `n = 0`. -/
def natCharsAux : Nat → Nat → List Char
  | 0, _ => []
  | fuel + 1, n =>
    if n = 0 then [] else natCharsAux fuel (n / 10) ++ [digitChar (n % 10)]

/-- Big-endian decimal digit string of `n` (`"0"` for zero). -/
def natChars (n : Nat) : List Char := if n = 0 then ['0'] else natCharsAux n n

/-- Value of a big-endian digit string, accumulated left to right. -/
def digitsToNat (l : List Char) : Nat :=
  l.foldl (fun a c => a * 10 + (c.toNat - 48)) 0

/-- Split off the maximal leading run of decimal digits. -/
def takeDigits : List Char → List Char × List Char
  | [] => ([], [])
  | c :: rest =>
    if c.isDigit then
      let p := takeDigits rest
      (c :: p.1, p.2)
    else ([], c :: rest)

/-- The next character, if any, is not a decimal digit. -/
def nonDigitStart : List Char → Prop
  | [] => True
  | c :: _ => ¬ c.isDigit

instance : DecidablePred nonDigitStart := by
  intro l
  cases l with
  | nil => exact isTrue trivial
  | cons c _ => exact inferInstanceAs (Decidable (¬ c.isDigit))

theorem digitChar_isDigit {d : Nat} (h : d < 10) : (digitChar d).isDigit := by
  interval_cases d <;> decide

theorem digitChar_toNat {d : Nat} (h : d < 10) : (digitChar d).toNat - 48 = d := by
  interval_cases d <;> decide

theorem natCharsAux_digits :
    ∀ fuel n, ∀ c ∈ natCharsAux fuel n, c.isDigit := by
  intro fuel
  induction fuel with
  | zero => intro n c hc; simp [natCharsAux] at hc
  | succ fuel ih =>
    intro n c hc
    by_cases h0 : n = 0
    · simp [natCharsAux, h0] at hc
    · simp only [natCharsAux, h0, if_false, List.mem_append, List.mem_singleton] at hc
      rcases hc with hc | hc
      · exact ih _ c hc
      · subst hc; exact digitChar_isDigit (Nat.mod_lt _ (by norm_num))

theorem natChars_digits (n : Nat) : ∀ c ∈ natChars n, c.isDigit := by
  intro c hc
  by_cases h0 : n = 0
  · simp [natChars, h0] at hc; subst hc; decide
  · simp only [natChars, h0, if_false] at hc
    exact natCharsAux_digits n n c hc

theorem digitsToNat_append (a b : List Char) :
    digitsToNat (a ++ b) =
      b.foldl (fun x c => x * 10 + (c.toNat - 48)) (digitsToNat a) := by
  simp [digitsToNat, List.foldl_append]

theorem digitsToNat_append_singleton (a : List Char) (c : Char) :
    digitsToNat (a ++ [c]) = digitsToNat a * 10 + (c.toNat - 48) := by
  simp [digitsToNat_append, List.foldl]

theorem natCharsAux_correct :
    ∀ n fuel, n ≤ fuel → digitsToNat (natCharsAux fuel n) = n := by
  intro n
  induction n using Nat.strong_induction_on with
  | _ n ih =>
    intro fuel hfuel
    match fuel with
    | 0 =>
      interval_cases n
      simp [natCharsAux, digitsToNat]
    | fuel + 1 =>
      by_cases h0 : n = 0
      · simp [natCharsAux, h0, digitsToNat]
      · have hdiv : n / 10 < n := Nat.div_lt_self (Nat.pos_of_ne_zero h0) (by norm_num)
        have hdf : n / 10 ≤ fuel := by omega
        simp only [natCharsAux, h0, if_false]
        rw [digitsToNat_append_singleton, ih (n / 10) hdiv fuel hdf,
          digitChar_toNat (Nat.mod_lt _ (by norm_num))]
        omega

theorem digitsToNat_natChars (n : Nat) : digitsToNat (natChars n) = n := by
  by_cases h0 : n = 0
  · simp [natChars, h0, digitsToNat]
  · simp only [natChars, h0, if_false]
    exact natCharsAux_correct n n le_rfl

theorem natChars_ne_nil (n : Nat) : natChars n ≠ [] := by
  by_cases h0 : n = 0
  · simp [natChars, h0]
  · have : natCharsAux n n ≠ [] := by
      match n, h0 with
      | n + 1, _ => simp [natCharsAux]
    simpa [natChars, h0]

theorem takeDigits_append (dl : List Char) (rest : List Char)
    (hdl : ∀ c ∈ dl, c.isDigit) (hrest : nonDigitStart rest) :
    takeDigits (dl ++ rest) = (dl, rest) := by
  induction dl with
  | nil =>
    cases rest with
    | nil => rfl
    | cons c r =>
      simp only [nonDigitStart] at hrest
      simp [takeDigits, hrest]
  | cons c dl ih =>
    have hc : c.isDigit := hdl c (by simp)
    have ih' := ih (fun x hx => hdl x (by simp [hx]))
    simp [takeDigits, hc, ih']

theorem natCharsAux_length_le :
    ∀ fuel n e, n ≤ fuel → n < 10 ^ e → (natCharsAux fuel n).length ≤ e := by
  intro fuel
  induction fuel with
  | zero => intro n e _ _; simp [natCharsAux]
  | succ fuel ih =>
    intro n e hfuel hlt
    by_cases h0 : n = 0
    · simp [natCharsAux, h0]
    · have he : e ≠ 0 := by
        intro h; subst h; simp at hlt; omega
      obtain ⟨e, rfl⟩ := Nat.exists_eq_succ_of_ne_zero he
      have hdiv : n / 10 < 10 ^ e := by
        rw [Nat.div_lt_iff_lt_mul (by norm_num)]
        calc n < 10 ^ (e + 1) := hlt
        _ = 10 ^ e * 10 := by ring
      have hdf : n / 10 ≤ fuel := by
        have : n / 10 < n := Nat.div_lt_self (Nat.pos_of_ne_zero h0) (by norm_num)
        omega
      simp only [natCharsAux, h0, if_false, List.length_append, List.length_singleton]
      have := ih (n / 10) e hdf hdiv
      omega

theorem natChars_length_le {n e : Nat} (he : 0 < e) (hlt : n < 10 ^ e) :
    (natChars n).length ≤ e := by
  by_cases h0 : n = 0
  · simp [natChars, h0]; omega
  · simp only [natChars, h0, if_false]
    exact natCharsAux_length_le n n e le_rfl hlt

theorem digitsToNat_replicate_zero_append (k : Nat) (l : List Char) :
    digitsToNat (List.replicate k '0' ++ l) = digitsToNat l := by
  induction k with
  | zero => simp
  | succ k ih =>
    have : List.replicate (k + 1) '0' ++ l = '0' :: (List.replicate k '0' ++ l) := by
      simp [List.replicate_succ]
    rw [this]
    simpa [digitsToNat, List.foldl] using ih

/-! ## Exact decimals

`Dec` models an exact decimal number `m / 10 ^ e`: the value of a
PostgreSQL `numeric` column, of a Python `Decimal`, and (in this model) of
the decimal text a JSON number carries on the wire. -/

/-- An exact decimal number, valued `m / 10 ^ e`. -/
structure Dec where
  m : Int
  e : Nat
deriving DecidableEq, Repr

/-- The rational value of an exact decimal. -/
def Dec.toRat (d : Dec) : ℚ := (d.m : ℚ) / (10 : ℚ) ^ d.e

/-- Digit string of the fractional part, zero-padded to exactly `e` digits. -/
def fracChars (f e : Nat) : List Char :=
  List.replicate (e - (natChars f).length) '0' ++ natChars f

/-- Decimal text of the unsigned value `a / 10 ^ e`. -/
def decCharsNat (a e : Nat) : List Char :=
  if e = 0 then natChars a
  else natChars (a / 10 ^ e) ++ '.' :: fracChars (a % 10 ^ e) e

/-- Decimal text of `d`, e.g. `Dec.mk 5022 2` prints as `"50.22"`.
Model of Python `str()` on a numeric value. -/
def decChars (d : Dec) : List Char :=
  (if d.m < 0 then ['-'] else []) ++ decCharsNat d.m.natAbs d.e

/-- Parse an unsigned decimal literal `digits[.digits]` spanning the whole
input, returning the scaled mantissa and the exponent. -/
def decParseUnsigned (l : List Char) : Option (Nat × Nat) :=
  let p1 := takeDigits l
  if p1.1 = [] then none
  else
    match p1.2 with
    | [] => some (digitsToNat p1.1, 0)
    | '.' :: r2 =>
      let p2 := takeDigits r2
      if p2.1 = [] then none
      else if p2.2 ≠ [] then none
      else some (digitsToNat p1.1 * 10 ^ p2.1.length + digitsToNat p2.1, p2.1.length)
    | _ => none

/-- Parse decimal text back into an exact decimal: model of Python's
`Decimal(...)` constructor applied to a string.  Returns `none` when the
text is not a plain decimal literal. -/
def decParseChars (l : List Char) : Option Dec :=
  match l with
  | [] => Option.none
  | c :: r =>
    if c = '-' then (decParseUnsigned r).map (fun p => ⟨-(p.1 : Int), p.2⟩)
    else (decParseUnsigned (c :: r)).map (fun p => ⟨(p.1 : Int), p.2⟩)

theorem fracChars_length {f e : Nat} (he : 0 < e) (hf : f < 10 ^ e) :
    (fracChars f e).length = e := by
  have := natChars_length_le he hf
  simp [fracChars, List.length_replicate]
  omega

theorem fracChars_digits (f e : Nat) : ∀ c ∈ fracChars f e, c.isDigit := by
  intro c hc
  simp only [fracChars, List.mem_append, List.mem_replicate] at hc
  rcases hc with ⟨_, rfl⟩ | hc
  · decide
  · exact natChars_digits f c hc

theorem digitsToNat_fracChars (f e : Nat) : digitsToNat (fracChars f e) = f := by
  rw [fracChars, digitsToNat_replicate_zero_append, digitsToNat_natChars]

theorem decParseUnsigned_decCharsNat (a e : Nat) :
    decParseUnsigned (decCharsNat a e) = some (a, e) := by
  by_cases he : e = 0
  · subst he
    have ht : takeDigits (natChars a ++ []) = (natChars a, []) :=
      takeDigits_append _ _ (natChars_digits _) trivial
    simp only [List.append_nil] at ht
    simp [decCharsNat, decParseUnsigned, ht, natChars_ne_nil, digitsToNat_natChars]
  · have hepos : 0 < e := Nat.pos_of_ne_zero he
    have hmod : a % 10 ^ e < 10 ^ e :=
      Nat.mod_lt _ (Nat.pos_pow_of_pos e (by norm_num))
    have hflen : (fracChars (a % 10 ^ e) e).length = e :=
      fracChars_length hepos hmod
    have hint : takeDigits (natChars (a / 10 ^ e) ++
        ('.' :: fracChars (a % 10 ^ e) e)) =
        (natChars (a / 10 ^ e), '.' :: fracChars (a % 10 ^ e) e) :=
      takeDigits_append _ _ (natChars_digits _) (by simp [nonDigitStart])
    have hfrac : takeDigits (fracChars (a % 10 ^ e) e ++ []) =
        (fracChars (a % 10 ^ e) e, []) :=
      takeDigits_append _ _ (fracChars_digits _ _) trivial
    simp only [List.append_nil] at hfrac
    have hfne : fracChars (a % 10 ^ e) e ≠ [] := by
      intro h
      rw [h] at hflen
      simp at hflen
      omega
    simp only [decCharsNat, he, if_false, decParseUnsigned, hint, natChars_ne_nil,
      if_false, hfrac, hfne, ne_eq, not_true_eq_false, if_false,
      digitsToNat_natChars, digitsToNat_fracChars, hflen]
    simp only [Option.some.injEq, Prod.mk.injEq]
    exact ⟨Nat.div_add_mod' a (10 ^ e), trivial⟩

theorem decCharsNat_head_digit (a e : Nat) :
    ∃ c rest, decCharsNat a e = c :: rest ∧ c.isDigit := by
  by_cases he : e = 0
  · subst he
    rcases hn : natChars a with _ | ⟨c, rest⟩
    · exact absurd hn (natChars_ne_nil _)
    · exact ⟨c, rest, by simp [decCharsNat, hn],
        natChars_digits a c (by rw [hn]; simp)⟩
  · rcases hn : natChars (a / 10 ^ e) with _ | ⟨c, rest⟩
    · exact absurd hn (natChars_ne_nil _)
    · refine ⟨c, rest ++ '.' :: fracChars (a % 10 ^ e) e, by simp [decCharsNat, he, hn], ?_⟩
      exact natChars_digits _ c (by rw [hn]; simp)

/-- Printing an exact decimal and re-parsing it with `Decimal(...)`
recovers it: the composition the service uses at
`Decimal(str(float_value))` loses nothing in this model. -/
theorem decParseChars_decChars (d : Dec) : decParseChars (decChars d) = some d := by
  obtain ⟨m, e⟩ := d
  obtain ⟨c, rest, hcr, hcd⟩ := decCharsNat_head_digit m.natAbs e
  have hcm : c ≠ '-' := by
    intro h; subst h; simp [Char.isDigit] at hcd
  by_cases hm : m < 0
  · have hmk : decChars ⟨m, e⟩ = '-' :: decCharsNat m.natAbs e := by
      simp [decChars, hm]
    rw [hmk, decParseChars, if_pos rfl, decParseUnsigned_decCharsNat]
    simp only [Option.map_some', Option.some.injEq, Dec.mk.injEq]
    exact ⟨by omega, trivial⟩
  · have hmk : decChars ⟨m, e⟩ = decCharsNat m.natAbs e := by
      simp [decChars, hm]
    rw [hmk, hcr, decParseChars, if_neg hcm, ← hcr, decParseUnsigned_decCharsNat]
    simp only [Option.map_some', Option.some.injEq, Dec.mk.injEq]
    exact ⟨by omega, trivial⟩

/-! ## Python values

`PyValue` models the Python values flowing through the service: what the
driver's JSON decoding produces (strings, ints, floats, booleans, `None`,
dicts, lists) together with the richer types the rehydration step creates
(`Decimal`, `UUID`, `datetime`, `date`).  A Python float is modelled as the
exact decimal it was decoded from; the driver decode and `str()` round trip
is value-preserving in this model (true of CPython's shortest-repr floats
for decimals of up to 15 significant digits, such as every value of a
`numeric(10, 2)` column). -/

mutual
inductive PyValue where
  | str (s : String)
  | int (n : Int)
  | float (d : Dec)
  | bool (b : Bool)
  | pynone
  | decimal (d : Dec)
  | uuid (s : String)
  | datetime (s : String)
  | date (s : String)
  | dict (fs : PyFields)
  | list (es : PyElems)

inductive PyFields where
  | nil
  | cons (k : String) (v : PyValue) (fs : PyFields)

inductive PyElems where
  | nil
  | cons (v : PyValue) (es : PyElems)
end

deriving instance DecidableEq for PyValue, PyFields, PyElems

/-! ## JSON serialization: model of `json.dumps` / `json.loads` -/

/-- JSON string escaping of one character (quote and backslash). -/
def escJsonChar (c : Char) : List Char :=
  if c = '"' ∨ c = '\\' then ['\\', c] else [c]

/-- JSON string escaping of a character list. -/
def escJsonChars : List Char → List Char
  | [] => []
  | c :: rest => escJsonChar c ++ escJsonChars rest

/-- Decimal text of a Python int, e.g. `-7` prints as `"-7"`. -/
def intChars (n : Int) : List Char :=
  (if n < 0 then ['-'] else []) ++ natChars n.natAbs

mutual
/-- Model of `json.dumps` producing canonical compact text.  On the
constructors `json.dumps` cannot serialize (`Decimal`, `UUID`, datetimes,
floats do not occur in driver-decoded JSON values) it returns `"null"`;
those cases are unreachable for values satisfying `isJsonableV`. -/
def dumpsVal : PyValue → List Char
  | .str s => '"' :: escJsonChars s.data ++ ['"']
  | .int n => intChars n
  | .float _ => "null".data
  | .bool b => if b then "true".data else "false".data
  | .pynone => "null".data
  | .decimal _ => "null".data
  | .uuid _ => "null".data
  | .datetime _ => "null".data
  | .date _ => "null".data
  | .dict fs => '{' :: dumpsFields fs ++ ['}']
  | .list es => '[' :: dumpsElems es ++ [']']

def dumpsFields : PyFields → List Char
  | .nil => []
  | .cons k v fs =>
    '"' :: escJsonChars k.data ++ '"' :: ':' :: dumpsVal v ++ dumpsFieldsRest fs

def dumpsFieldsRest : PyFields → List Char
  | .nil => []
  | .cons k v fs =>
    ',' :: '"' :: escJsonChars k.data ++ '"' :: ':' :: dumpsVal v ++ dumpsFieldsRest fs

def dumpsElems : PyElems → List Char
  | .nil => []
  | .cons v es => dumpsVal v ++ dumpsElemsRest es

def dumpsElemsRest : PyElems → List Char
  | .nil => []
  | .cons v es => ',' :: dumpsVal v ++ dumpsElemsRest es
end

mutual
/-- The value is one `json.loads` can produce: strings, ints, booleans,
`None`, and dicts/lists thereof. -/
def isJsonableV : PyValue → Bool
  | .str _ => true
  | .int _ => true
  | .bool _ => true
  | .pynone => true
  | .dict fs => isJsonableF fs
  | .list es => isJsonableE es
  | _ => false

def isJsonableF : PyFields → Bool
  | .nil => true
  | .cons _ v fs => isJsonableV v && isJsonableF fs

def isJsonableE : PyElems → Bool
  | .nil => true
  | .cons v es => isJsonableV v && isJsonableE es
end

mutual
/-- Node count of a value, used as a fuel bound for the parser. -/
def sizeV : PyValue → Nat
  | .dict fs => sizeF fs + 1
  | .list es => sizeE es + 1
  | _ => 1

def sizeF : PyFields → Nat
  | .nil => 1
  | .cons _ v fs => sizeV v + sizeF fs + 1

def sizeE : PyElems → Nat
  | .nil => 1
  | .cons v es => sizeV v + sizeE es + 1
end

mutual
/-- Parse a JSON string body up to the closing quote, undoing escapes. -/
def parseStrBody : List Char → Option (List Char × List Char)
  | [] => Option.none
  | c :: rest =>
    if c = '"' then some ([], rest)
    else if c = '\\' then parseStrEsc rest
    else (parseStrBody rest).map (fun p => (c :: p.1, p.2))

/-- Parse the character following a backslash escape, then the remainder. -/
def parseStrEsc : List Char → Option (List Char × List Char)
  | [] => Option.none
  | c :: rest => (parseStrBody rest).map (fun p => (c :: p.1, p.2))
end

mutual
/-- Recursive-descent JSON parser: model of `json.loads`.  The fuel
argument only bounds recursion depth; any fuel at least the node count of
the printed value suffices. -/
def parseVal : Nat → List Char → Option (PyValue × List Char)
  | 0, _ => Option.none
  | _ + 1, [] => Option.none
  | fuel + 1, c :: rest =>
    if c = '"' then (parseStrBody rest).map (fun p => (.str (String.mk p.1), p.2))
    else if c = '{' then
      if rest.head? = some '}' then some (.dict .nil, rest.tail)
      else (parseFields fuel rest).map (fun p => (.dict p.1, p.2))
    else if c = '[' then
      if rest.head? = some ']' then some (.list .nil, rest.tail)
      else (parseElems fuel rest).map (fun p => (.list p.1, p.2))
    else if c = 't' then
      if rest.take 3 = ['r', 'u', 'e'] then some (.bool true, rest.drop 3)
      else Option.none
    else if c = 'f' then
      if rest.take 4 = ['a', 'l', 's', 'e'] then some (.bool false, rest.drop 4)
      else Option.none
    else if c = 'n' then
      if rest.take 3 = ['u', 'l', 'l'] then some (.pynone, rest.drop 3)
      else Option.none
    else if c = '-' then
      let p := takeDigits rest
      if p.1 = [] then Option.none
      else some (.int (-(digitsToNat p.1 : Int)), p.2)
    else if c.isDigit then
      let p := takeDigits (c :: rest)
      some (.int ((digitsToNat p.1 : Int)), p.2)
    else Option.none

/-- Parse one or more `"key":value` entries followed by `'}'`. -/
def parseFields : Nat → List Char → Option (PyFields × List Char)
  | 0, _ => Option.none
  | fuel + 1, l =>
    match l with
    | '"' :: r1 =>
      match parseStrBody r1 with
      | Option.none => Option.none
      | some (k, r2) =>
        match r2 with
        | ':' :: r3 =>
          match parseVal fuel r3 with
          | Option.none => Option.none
          | some (v, r4) =>
            match r4 with
            | ',' :: r5 =>
              (parseFields fuel r5).map (fun p => (.cons (String.mk k) v p.1, p.2))
            | '}' :: r5 => some (.cons (String.mk k) v .nil, r5)
            | _ => Option.none
        | _ => Option.none
    | _ => Option.none

/-- Parse one or more values followed by `']'`. -/
def parseElems : Nat → List Char → Option (PyElems × List Char)
  | 0, _ => Option.none
  | fuel + 1, l =>
    match parseVal fuel l with
    | Option.none => Option.none
    | some (v, r1) =>
      match r1 with
      | ',' :: r2 => (parseElems fuel r2).map (fun p => (.cons v p.1, p.2))
      | ']' :: r2 => some (.cons v .nil, r2)
      | _ => Option.none
end

/-- Model of Python `json.loads` on a whole string. -/
def jsonLoads (s : String) : Option PyValue :=
  match parseVal (2 * s.data.length + 1) s.data with
  | some (v, []) => some v
  | _ => Option.none

/-- Model of Python `json.dumps` on a whole value. -/
def jsonDumps (v : PyValue) : String := String.mk (dumpsVal v)

theorem parseStrBody_esc (l rest : List Char) :
    parseStrBody (escJsonChars l ++ '"' :: rest) = some (l, rest) := by
  induction l with
  | nil => rfl
  | cons c l ih =>
    by_cases hc : c = '"' ∨ c = '\\'
    · have h1 : escJsonChars (c :: l) ++ '"' :: rest =
          '\\' :: c :: (escJsonChars l ++ '"' :: rest) := by
        simp [escJsonChars, escJsonChar, hc]
      rw [h1, parseStrBody, if_neg (by decide), if_pos rfl, parseStrEsc, ih]
      rfl
    · have h1 : escJsonChars (c :: l) ++ '"' :: rest =
          c :: (escJsonChars l ++ '"' :: rest) := by
        simp [escJsonChars, escJsonChar, hc]
      push_neg at hc
      rw [h1, parseStrBody, if_neg hc.1, if_neg hc.2, ih]
      rfl

theorem takeDigits_natChars (a : Nat) (rest : List Char) (h : nonDigitStart rest) :
    takeDigits (natChars a ++ rest) = (natChars a, rest) :=
  takeDigits_append _ _ (natChars_digits a) h

/-- Parsing the printed form of a Python int recovers it (with whatever
trails it), provided the trailing text does not begin with a digit. -/
theorem parseVal_intChars (n : Int) (fuel : Nat) (rest : List Char)
    (h : nonDigitStart rest) :
    parseVal (fuel + 1) (intChars n ++ rest) = some (.int n, rest) := by
  by_cases hn : n < 0
  · have h1 : intChars n ++ rest = '-' :: (natChars n.natAbs ++ rest) := by
      simp [intChars, hn]
    rw [h1, parseVal]
    have e1 : ('-' : Char) ≠ '"' := by decide
    have e2 : ('-' : Char) ≠ '{' := by decide
    have e3 : ('-' : Char) ≠ '[' := by decide
    have e4 : ('-' : Char) ≠ 't' := by decide
    have e5 : ('-' : Char) ≠ 'f' := by decide
    have e6 : ('-' : Char) ≠ 'n' := by decide
    rw [if_neg e1, if_neg e2, if_neg e3, if_neg e4, if_neg e5, if_neg e6, if_pos rfl]
    simp only [takeDigits_natChars _ _ h, natChars_ne_nil, if_false,
      digitsToNat_natChars]
    have : -((n.natAbs : Int)) = n := by omega
    rw [this]
  · have h1 : intChars n ++ rest = natChars n.natAbs ++ rest := by
      simp [intChars, hn]
    rw [h1]
    rcases hd : natChars n.natAbs with _ | ⟨c, cs⟩
    · exact absurd hd (natChars_ne_nil _)
    have hcd : c.isDigit := natChars_digits n.natAbs c (by rw [hd]; simp)
    have e1 : c ≠ '"' := by intro h; subst h; simp [Char.isDigit] at hcd
    have e2 : c ≠ '{' := by intro h; subst h; simp [Char.isDigit] at hcd
    have e3 : c ≠ '[' := by intro h; subst h; simp [Char.isDigit] at hcd
    have e4 : c ≠ 't' := by intro h; subst h; simp [Char.isDigit] at hcd
    have e5 : c ≠ 'f' := by intro h; subst h; simp [Char.isDigit] at hcd
    have e6 : c ≠ 'n' := by intro h; subst h; simp [Char.isDigit] at hcd
    have e7 : c ≠ '-' := by intro h; subst h; simp [Char.isDigit] at hcd
    show parseVal (fuel + 1) (c :: (cs ++ rest)) = some (.int n, rest)
    rw [parseVal, if_neg e1, if_neg e2, if_neg e3, if_neg e4, if_neg e5, if_neg e6,
      if_neg e7, if_pos hcd]
    have hcons : c :: (cs ++ rest) = natChars n.natAbs ++ rest := by rw [hd]; rfl
    simp only [hcons, takeDigits_natChars _ _ h, digitsToNat_natChars]
    have : ((n.natAbs : Int)) = n := by omega
    rw [this]

theorem nonDigit_fieldsRest (fs : PyFields) (rest : List Char) :
    nonDigitStart (dumpsFieldsRest fs ++ '}' :: rest) := by
  cases fs <;> simp [dumpsFieldsRest, nonDigitStart] <;> decide

theorem nonDigit_elemsRest (es : PyElems) (rest : List Char) :
    nonDigitStart (dumpsElemsRest es ++ ']' :: rest) := by
  cases es <;> simp [dumpsFieldsRest, dumpsElemsRest, nonDigitStart] <;> decide

theorem dumpsV_head_not_rbracket (v : PyValue) (hv : isJsonableV v = true) :
    ∃ c cs, dumpsVal v = c :: cs ∧ c ≠ ']' := by
  cases v with
  | str s => exact ⟨'"', _, rfl, by decide⟩
  | int n =>
    by_cases hn : n < 0
    · refine ⟨'-', natChars n.natAbs, ?_, by decide⟩
      simp [dumpsVal, intChars, hn]
    · rcases hd : natChars n.natAbs with _ | ⟨c, cs⟩
      · exact absurd hd (natChars_ne_nil _)
      · have hcd : c.isDigit := natChars_digits n.natAbs c (by rw [hd]; simp)
        refine ⟨c, cs, ?_, ?_⟩
        · simp [dumpsVal, intChars, hn, hd]
        · intro h; subst h; simp [Char.isDigit] at hcd
  | bool b => cases b with
    | true => exact ⟨'t', _, rfl, by decide⟩
    | false => exact ⟨'f', _, rfl, by decide⟩
  | pynone => exact ⟨'n', _, rfl, by decide⟩
  | dict fs => exact ⟨'{', _, rfl, by decide⟩
  | list es => exact ⟨'[', _, rfl, by decide⟩
  | float d => simp [isJsonableV] at hv
  | decimal d => simp [isJsonableV] at hv
  | uuid s => simp [isJsonableV] at hv
  | datetime s => simp [isJsonableV] at hv
  | date s => simp [isJsonableV] at hv

mutual
/-- Round trip: parsing the `json.dumps` output of a JSON-decodable value
recovers the value exactly, with any non-digit-leading remainder intact. -/
theorem parse_dumpsV : ∀ (v : PyValue), isJsonableV v = true → ∀ fuel : Nat,
    sizeV v ≤ fuel → ∀ rest : List Char, nonDigitStart rest →
    parseVal fuel (dumpsVal v ++ rest) = some (v, rest)
  | .str s, _, fuel, hf, rest, _ => by
    obtain ⟨f, rfl⟩ : ∃ f, fuel = f + 1 := by
      simp only [sizeV] at hf; exact ⟨fuel - 1, by omega⟩
    have h1 : dumpsVal (.str s) ++ rest =
        '"' :: (escJsonChars s.data ++ '"' :: rest) := by
      simp [dumpsVal]
    rw [h1, parseVal]
    simp [parseStrBody_esc]
  | .int n, _, fuel, hf, rest, hrest => by
    obtain ⟨f, rfl⟩ : ∃ f, fuel = f + 1 := by
      simp only [sizeV] at hf; exact ⟨fuel - 1, by omega⟩
    exact parseVal_intChars n f rest hrest
  | .bool true, _, fuel, hf, rest, _ => by
    obtain ⟨f, rfl⟩ : ∃ f, fuel = f + 1 := by
      simp only [sizeV] at hf; exact ⟨fuel - 1, by omega⟩
    rfl
  | .bool false, _, fuel, hf, rest, _ => by
    obtain ⟨f, rfl⟩ : ∃ f, fuel = f + 1 := by
      simp only [sizeV] at hf; exact ⟨fuel - 1, by omega⟩
    rfl
  | .pynone, _, fuel, hf, rest, _ => by
    obtain ⟨f, rfl⟩ : ∃ f, fuel = f + 1 := by
      simp only [sizeV] at hf; exact ⟨fuel - 1, by omega⟩
    rfl
  | .dict .nil, _, fuel, hf, rest, _ => by
    obtain ⟨f, rfl⟩ : ∃ f, fuel = f + 1 := by
      simp only [sizeV] at hf; exact ⟨fuel - 1, by omega⟩
    rfl
  | .dict (.cons k v fs), hv, fuel, hf, rest, _ => by
    obtain ⟨f, rfl⟩ : ∃ f, fuel = f + 1 := by
      simp only [sizeV] at hf; exact ⟨fuel - 1, by omega⟩
    have hj : isJsonableV v = true ∧ isJsonableF fs = true := by
      simpa [isJsonableV, isJsonableF, Bool.and_eq_true] using hv
    have h1 : dumpsVal (.dict (.cons k v fs)) ++ rest =
        '{' :: (dumpsFields (.cons k v fs) ++ '}' :: rest) := by
      simp [dumpsVal]
    have hhead : ((dumpsFields (.cons k v fs) ++ '}' :: rest).head? = some '}') = False := by
      simp [dumpsFields]
    have hbound : sizeF (.cons k v fs) ≤ f := by
      simp only [sizeV] at hf; omega
    rw [h1, parseVal]
    simp only [hhead, if_false,
      parse_dumpsF k v fs hj.1 hj.2 f hbound rest, Option.map_some']
    simp
  | .list .nil, _, fuel, hf, rest, _ => by
    obtain ⟨f, rfl⟩ : ∃ f, fuel = f + 1 := by
      simp only [sizeV] at hf; exact ⟨fuel - 1, by omega⟩
    rfl
  | .list (.cons v es), hv, fuel, hf, rest, _ => by
    obtain ⟨f, rfl⟩ : ∃ f, fuel = f + 1 := by
      simp only [sizeV] at hf; exact ⟨fuel - 1, by omega⟩
    have hj : isJsonableV v = true ∧ isJsonableE es = true := by
      simpa [isJsonableV, isJsonableE, Bool.and_eq_true] using hv
    have h1 : dumpsVal (.list (.cons v es)) ++ rest =
        '[' :: (dumpsElems (.cons v es) ++ ']' :: rest) := by
      simp [dumpsVal]
    have hhead : ((dumpsElems (.cons v es) ++ ']' :: rest).head? = some ']') = False := by
      obtain ⟨c, cs, hd, hc⟩ := dumpsV_head_not_rbracket v hj.1
      simp [dumpsElems, hd, hc]
    have hbound : sizeE (.cons v es) ≤ f := by
      simp only [sizeV] at hf; omega
    rw [h1, parseVal]
    simp only [hhead, if_false,
      parse_dumpsE v es hj.1 hj.2 f hbound rest, Option.map_some']
    simp
  | .float d, hv, _, _, _, _ => by simp [isJsonableV] at hv
  | .decimal d, hv, _, _, _, _ => by simp [isJsonableV] at hv
  | .uuid s, hv, _, _, _, _ => by simp [isJsonableV] at hv
  | .datetime s, hv, _, _, _, _ => by simp [isJsonableV] at hv
  | .date s, hv, _, _, _, _ => by simp [isJsonableV] at hv
termination_by v hv fuel hf rest hrest => sizeV v
decreasing_by
  all_goals simp only [sizeV, sizeF, sizeE]
  all_goals omega

/-- Round trip for a non-empty printed field list followed by `'}'`. -/
theorem parse_dumpsF : ∀ (k : String) (v : PyValue) (fs : PyFields),
    isJsonableV v = true → isJsonableF fs = true → ∀ fuel : Nat,
    sizeF (.cons k v fs) ≤ fuel → ∀ rest : List Char,
    parseFields fuel (dumpsFields (.cons k v fs) ++ '}' :: rest) =
      some (.cons k v fs, rest)
  | k, v, .nil, hv, _, fuel, hf, rest => by
    obtain ⟨f, rfl⟩ : ∃ f, fuel = f + 1 := by
      simp only [sizeF] at hf; exact ⟨fuel - 1, by omega⟩
    have h1 : dumpsFields (.cons k v .nil) ++ '}' :: rest =
        '"' :: (escJsonChars k.data ++
          '"' :: (':' :: (dumpsVal v ++ (dumpsFieldsRest .nil ++ '}' :: rest)))) := by
      simp [dumpsFields]
    have hvb : sizeV v ≤ f := by simp only [sizeF] at hf; omega
    rw [h1, parseFields, parseStrBody_esc]
    simp only [parse_dumpsV v hv f hvb _ (nonDigit_fieldsRest .nil rest)]
    simp [dumpsFieldsRest]
  | k, v, .cons k2 v2 fs2, hv, hfs, fuel, hf, rest => by
    obtain ⟨f, rfl⟩ : ∃ f, fuel = f + 1 := by
      simp only [sizeF] at hf; exact ⟨fuel - 1, by omega⟩
    have hj : isJsonableV v2 = true ∧ isJsonableF fs2 = true := by
      simpa [isJsonableF, Bool.and_eq_true] using hfs
    have h1 : dumpsFields (.cons k v (.cons k2 v2 fs2)) ++ '}' :: rest =
        '"' :: (escJsonChars k.data ++
          '"' :: (':' :: (dumpsVal v ++
            (dumpsFieldsRest (.cons k2 v2 fs2) ++ '}' :: rest)))) := by
      simp [dumpsFields]
    have hvb : sizeV v ≤ f := by simp only [sizeF] at hf; omega
    rw [h1, parseFields, parseStrBody_esc]
    simp only [parse_dumpsV v hv f hvb _ (nonDigit_fieldsRest (.cons k2 v2 fs2) rest)]
    have h2 : dumpsFieldsRest (.cons k2 v2 fs2) ++ '}' :: rest =
        ',' :: (dumpsFields (.cons k2 v2 fs2) ++ '}' :: rest) := by
      simp [dumpsFieldsRest, dumpsFields]
    have hbound : sizeF (.cons k2 v2 fs2) ≤ f := by
      simp only [sizeF] at hf ⊢; omega
    rw [h2]
    simp only [parse_dumpsF k2 v2 fs2 hj.1 hj.2 f hbound rest, Option.map_some']
termination_by k v fs hv hfs fuel hf rest => sizeF (.cons k v fs)
decreasing_by
  all_goals simp only [sizeV, sizeF, sizeE]
  all_goals omega

/-- Round trip for a non-empty printed element list followed by `']'`. -/
theorem parse_dumpsE : ∀ (v : PyValue) (es : PyElems),
    isJsonableV v = true → isJsonableE es = true → ∀ fuel : Nat,
    sizeE (.cons v es) ≤ fuel → ∀ rest : List Char,
    parseElems fuel (dumpsElems (.cons v es) ++ ']' :: rest) =
      some (.cons v es, rest)
  | v, .nil, hv, _, fuel, hf, rest => by
    obtain ⟨f, rfl⟩ : ∃ f, fuel = f + 1 := by
      simp only [sizeE] at hf; exact ⟨fuel - 1, by omega⟩
    have h1 : dumpsElems (.cons v .nil) ++ ']' :: rest =
        dumpsVal v ++ (dumpsElemsRest .nil ++ ']' :: rest) := by
      simp [dumpsElems]
    have hvb : sizeV v ≤ f := by simp only [sizeE] at hf; omega
    rw [h1, parseElems]
    simp only [parse_dumpsV v hv f hvb _ (nonDigit_elemsRest .nil rest)]
    simp [dumpsElemsRest]
  | v, .cons v2 es2, hv, hes, fuel, hf, rest => by
    obtain ⟨f, rfl⟩ : ∃ f, fuel = f + 1 := by
      simp only [sizeE] at hf; exact ⟨fuel - 1, by omega⟩
    have hj : isJsonableV v2 = true ∧ isJsonableE es2 = true := by
      simpa [isJsonableE, Bool.and_eq_true] using hes
    have h1 : dumpsElems (.cons v (.cons v2 es2)) ++ ']' :: rest =
        dumpsVal v ++ (dumpsElemsRest (.cons v2 es2) ++ ']' :: rest) := by
      simp [dumpsElems]
    have hvb : sizeV v ≤ f := by simp only [sizeE] at hf; omega
    rw [h1, parseElems]
    simp only [parse_dumpsV v hv f hvb _ (nonDigit_elemsRest (.cons v2 es2) rest)]
    have h2 : dumpsElemsRest (.cons v2 es2) ++ ']' :: rest =
        ',' :: (dumpsElems (.cons v2 es2) ++ ']' :: rest) := by
      simp [dumpsElemsRest, dumpsElems]
    have hbound : sizeE (.cons v2 es2) ≤ f := by
      simp only [sizeE] at hf ⊢; omega
    rw [h2]
    simp only [parse_dumpsE v2 es2 hj.1 hj.2 f hbound rest, Option.map_some']
termination_by v es hv hes fuel hf rest => sizeE (.cons v es)
decreasing_by
  all_goals simp only [sizeV, sizeF, sizeE]
  all_goals omega
end

mutual
/-- The parser fuel a value needs is bounded by its printed length. -/
theorem size_le_dumpsV : ∀ v : PyValue, sizeV v ≤ 2 * (dumpsVal v).length + 1
  | .str s => by simp [sizeV]
  | .int n => by simp [sizeV]
  | .float d => by simp [sizeV]
  | .bool b => by simp [sizeV]
  | .pynone => by simp [sizeV]
  | .decimal d => by simp [sizeV]
  | .uuid s => by simp [sizeV]
  | .datetime s => by simp [sizeV]
  | .date s => by simp [sizeV]
  | .dict fs => by
    have := size_le_dumpsF fs
    simp only [sizeV, dumpsVal, List.length_cons, List.length_append,
      List.length_singleton]
    omega
  | .list es => by
    have := size_le_dumpsE es
    simp only [sizeV, dumpsVal, List.length_cons, List.length_append,
      List.length_singleton]
    omega
termination_by v => sizeV v
decreasing_by
  all_goals simp only [sizeV, sizeF, sizeE]
  all_goals omega

theorem size_le_dumpsF : ∀ fs : PyFields, sizeF fs ≤ 2 * (dumpsFields fs).length + 4
  | .nil => by simp [sizeF, dumpsFields]
  | .cons k v fs => by
    have h1 := size_le_dumpsV v
    have h2 := size_le_dumpsFRest fs
    simp only [sizeF, dumpsFields, List.length_cons, List.length_append]
    omega
termination_by fs => sizeF fs
decreasing_by
  all_goals simp only [sizeV, sizeF, sizeE]
  all_goals omega

theorem size_le_dumpsFRest :
    ∀ fs : PyFields, sizeF fs ≤ 2 * (dumpsFieldsRest fs).length + 4
  | .nil => by simp [sizeF, dumpsFieldsRest]
  | .cons k v fs => by
    have h1 := size_le_dumpsV v
    have h2 := size_le_dumpsFRest fs
    simp only [sizeF, dumpsFieldsRest, List.length_cons, List.length_append]
    omega
termination_by fs => sizeF fs
decreasing_by
  all_goals simp only [sizeV, sizeF, sizeE]
  all_goals omega

theorem size_le_dumpsE : ∀ es : PyElems, sizeE es ≤ 2 * (dumpsElems es).length + 4
  | .nil => by simp [sizeE, dumpsElems]
  | .cons v es => by
    have h1 := size_le_dumpsV v
    have h2 := size_le_dumpsERest es
    simp only [sizeE, dumpsElems, List.length_append]
    omega
termination_by es => sizeE es
decreasing_by
  all_goals simp only [sizeV, sizeF, sizeE]
  all_goals omega

theorem size_le_dumpsERest :
    ∀ es : PyElems, sizeE es ≤ 2 * (dumpsElemsRest es).length + 2
  | .nil => by simp [sizeE, dumpsElemsRest]
  | .cons v es => by
    have h1 := size_le_dumpsV v
    have h2 := size_le_dumpsERest es
    simp only [sizeE, dumpsElemsRest, List.length_cons, List.length_append]
    omega
termination_by es => sizeE es
decreasing_by
  all_goals simp only [sizeV, sizeF, sizeE]
  all_goals omega
end

/-- `json.loads` inverts `json.dumps` on every JSON-decodable value: the
re-serialization the service performs before rehydration is lossless. -/
theorem jsonLoads_jsonDumps (v : PyValue) (hv : isJsonableV v = true) :
    jsonLoads (jsonDumps v) = some v := by
  have hdata : (jsonDumps v).data = dumpsVal v := rfl
  have hlen : sizeV v ≤ 2 * (dumpsVal v).length + 1 := size_le_dumpsV v
  have h := parse_dumpsV v hv (2 * (dumpsVal v).length + 1) hlen [] trivial
  simp only [List.append_nil] at h
  simp [jsonLoads, hdata, h]

/-! ## SQL string literals: model of the driver quoting primitive

`_get_sanitized_sql_param` delegates to `psycopg.sql.quote` (or
`psycopg2.extensions.QuotedString`).  The model is standard SQL literal
quoting: wrap in single quotes and double every embedded single quote. -/

/-- Double every single quote. -/
def escSqlChars : List Char → List Char
  | [] => []
  | c :: rest =>
    if c = '\'' then '\'' :: '\'' :: escSqlChars rest
    else c :: escSqlChars rest

mutual
/-- Read a SQL string literal body back out, undoing quote doubling; stops
at the closing quote and returns the remaining text. -/
def sqlUnquoteBody : List Char → Option (List Char × List Char)
  | [] => Option.none
  | c :: rest =>
    if c = '\'' then sqlUnquoteQuote rest
    else (sqlUnquoteBody rest).map (fun p => (c :: p.1, p.2))

/-- After one single quote: a second quote means an escaped quote,
anything else ends the literal. -/
def sqlUnquoteQuote : List Char → Option (List Char × List Char)
  | [] => some ([], [])
  | c :: rest =>
    if c = '\'' then (sqlUnquoteBody rest).map (fun p => ('\'' :: p.1, p.2))
    else some ([], c :: rest)
end

/-- Parse a full SQL string literal `'...'`, returning its decoded content
and the text after the closing quote. -/
def parseSqlStringLit : List Char → Option (List Char × List Char)
  | [] => Option.none
  | c :: rest => if c = '\'' then sqlUnquoteBody rest else Option.none

/-- Model of `psycopg`'s string quoting primitive
(`_get_sanitized_sql_param` in the service): wrap in single quotes,
doubling embedded single quotes. -/
def get_sanitized_sql_param (p : String) : String :=
  String.mk ('\'' :: escSqlChars p.data ++ ['\''])

/-- The text after a spliced literal never begins with a single quote
(in the combined statement a literal is followed by SQL punctuation). -/
def nonQuoteStart : List Char → Prop
  | [] => True
  | c :: _ => c ≠ '\''

instance : DecidablePred nonQuoteStart := by
  intro l
  cases l with
  | nil => exact isTrue trivial
  | cons c _ => exact inferInstanceAs (Decidable (c ≠ '\''))

theorem sqlUnquoteBody_esc (l : List Char) (rest : List Char)
    (hrest : nonQuoteStart rest) :
    sqlUnquoteBody (escSqlChars l ++ '\'' :: rest) = some (l, rest) := by
  induction l with
  | nil =>
    cases rest with
    | nil => rfl
    | cons c r =>
      simp only [nonQuoteStart] at hrest
      simp [escSqlChars, sqlUnquoteBody, sqlUnquoteQuote, hrest]
  | cons c l ih =>
    by_cases hc : c = '\''
    · subst hc
      have h1 : escSqlChars ('\'' :: l) ++ '\'' :: rest =
          '\'' :: '\'' :: (escSqlChars l ++ '\'' :: rest) := by
        simp [escSqlChars]
      rw [h1, sqlUnquoteBody, if_pos rfl, sqlUnquoteQuote, if_pos rfl, ih]
      rfl
    · have h1 : escSqlChars (c :: l) ++ '\'' :: rest =
          c :: (escSqlChars l ++ '\'' :: rest) := by
        simp [escSqlChars, hc]
      rw [h1, sqlUnquoteBody, if_neg hc, ih]
      rfl

/-- Round trip: the quoted literal produced by the sanitizer parses back to
exactly the original string, for any following text that does not begin
with a quote.  Embedded quotes (`Ap's`) cannot break out of the literal. -/
theorem parseSqlStringLit_sanitized (p : String) (rest : List Char)
    (hrest : nonQuoteStart rest) :
    parseSqlStringLit ((get_sanitized_sql_param p).data ++ rest) =
      some (p.data, rest) := by
  have h1 : (get_sanitized_sql_param p).data ++ rest =
      '\'' :: (escSqlChars p.data ++ '\'' :: rest) := by
    simp [get_sanitized_sql_param]
  rw [h1, parseSqlStringLit, if_pos rfl, sqlUnquoteBody_esc p.data rest hrest]

/-! ## Python-side plumbing for the service -/

/-- The exceptions the embedded code paths can raise. -/
inductive PyErr where
  | valueError (msg : String)
  | typeError
  | jsonDecodeError
  | decimalInvalidOperation
  | lookupError
deriving DecidableEq

/-- Explicit sequential `mapM` over `Except`, mirroring a Python loop that
stops at the first raised exception. -/
def mapMExcept {α β : Type} (f : α → Except PyErr β) : List α → Except PyErr (List β)
  | [] => .ok []
  | a :: as =>
    match f a with
    | .error e => .error e
    | .ok b =>
      match mapMExcept f as with
      | .error e => .error e
      | .ok bs => .ok (b :: bs)

/-- A bound parameter as produced by the ORM compiler, classified by the
runtime types `_get_django_sql_for_queryset` inspects. -/
inductive SqlParam where
  | str (s : String)
  | uuid (s : String)
  | timestamp (s : String)
  | int (n : Int)
  | float (d : Dec)
  | other (typeName : String)
deriving DecidableEq

/-- One step of the parameter-quoting loop in
`_get_django_sql_for_queryset` (service lines 224-236): strings through the
driver quoting primitive, UUID and datetime values single-quoted, int and
float passed through as decimal text, anything else raises `ValueError`. -/
def quoteParam : SqlParam → Except PyErr String
  | .str s => .ok (get_sanitized_sql_param s)
  | .uuid s => .ok ("'" ++ s ++ "'")
  | .timestamp s => .ok ("'" ++ s ++ "'")
  | .int n => .ok (String.mk (intChars n))
  | .float d => .ok (String.mk (decChars d))
  | .other t => .error (.valueError ("Unsupported param type: " ++ t))

/-- The Django field classes the rehydration step dispatches on. -/
inductive FieldKind where
  | decimalField
  | uuidField
  | dateField
  | dateTimeField
  | jsonField
  | otherField
deriving DecidableEq

/-- A selected column: the model field attname and its field class. -/
structure FieldSpec where
  attname : String
  kind : FieldKind
deriving DecidableEq

/-- A database column value as PostgreSQL materializes it.  A `jsonb`
column's payload is carried as the Python value it decodes to (JSON values
and those Python values are in bijection for `isJsonableV` shapes). -/
inductive PgValue where
  | int (n : Int)
  | text (s : String)
  | numeric (d : Dec)
  | uuid (s : String)
  | timestamp (s : String)
  | date (s : String)
  | jsonb (j : PyValue)
  | bool (b : Bool)
  | null
deriving DecidableEq

/-- Composition of the engine's `json_agg`/`json_build_object` encoding
with the driver's JSON decoding: what a column value looks like inside the
decoded row dict.  Numbers arrive as floats carrying the column's decimal
text, uuid/timestamp/date values as strings, and a `jsonb` column is
inlined as native JSON, not as its opaque text form. -/
def pgToPy : PgValue → PyValue
  | .int n => .int n
  | .text s => .str s
  | .numeric d => .float d
  | .uuid s => .str s
  | .timestamp s => .str s
  | .date s => .str s
  | .jsonb j => j
  | .bool b => .bool b
  | .null => .pynone

def PyValue.isNone : PyValue → Bool
  | .pynone => true
  | _ => false

def PyValue.isDictOrList : PyValue → Bool
  | .dict _ => true
  | .list _ => true
  | _ => false

/-! ## Object building: model of `from_db`, converters and populators -/

mutual
/-- One `select_related` branch: relation accessor name, the related
model's selected fields, and its own nested relations. -/
inductive RelDesc where
  | mk (name : String) (fields : List FieldSpec) (subs : RelDescs)

inductive RelDescs where
  | nil
  | cons (d : RelDesc) (ds : RelDescs)
end

deriving instance DecidableEq for RelDesc, RelDescs

mutual
/-- A rehydrated model instance: its field attributes and its
`_state.fields_cache` of related instances. -/
inductive Obj where
  | mk (attrs : List (FieldSpec × PyValue)) (cache : ObjCache)

/-- `_state.fields_cache`: relation name to the cached related instance,
which is `None` when no related row matched. -/
inductive ObjCache where
  | nil
  | consNone (name : String) (rest : ObjCache)
  | consSome (name : String) (o : Obj) (rest : ObjCache)
end

deriving instance DecidableEq for Obj, ObjCache

def Obj.attrs : Obj → List (FieldSpec × PyValue)
  | .mk attrs _ => attrs

def Obj.cache : Obj → ObjCache
  | .mk _ cache => cache

/-- Model of the per-column `from_db` converters that
`compiler.results_iter` applies (external ORM): only `JSONField` has one on
PostgreSQL, `json.loads` on the stored text. -/
def applyDbConverter (kind : FieldKind) (v : PyValue) : Except PyErr PyValue :=
  if kind = .jsonField then
    match v with
    | .pynone => .ok .pynone
    | .str s =>
      match jsonLoads s with
      | some j => .ok j
      | Option.none => .error .jsonDecodeError
    | _ => .error .typeError
  else .ok v

/-- Consume one value per selected field, applying its converter. -/
def convertFields : List FieldSpec → List PyValue →
    Except PyErr (List (FieldSpec × PyValue) × List PyValue)
  | [], vals => .ok ([], vals)
  | _ :: _, [] => .error .lookupError
  | f :: fs, v :: vals =>
    match applyDbConverter f.kind v with
    | .error e => .error e
    | .ok cv =>
      match convertFields fs vals with
      | .error e => .error e
      | .ok p => .ok ((f, cv) :: p.1, p.2)

mutual
/-- Model of `RelatedPopulator.populate` (external ORM): build one related
instance from the flat row, consuming its columns and those of its nested
relations; the instance is `None` when its leading primary-key column is
null. -/
def buildRel : RelDesc → List PyValue →
    Except PyErr ((String × Option Obj) × List PyValue)
  | .mk name fields subs, vals =>
    match convertFields fields vals with
    | .error e => .error e
    | .ok p =>
      match buildRels subs p.2 with
      | .error e => .error e
      | .ok q =>
        match p.1 with
        | [] => .ok ((name, Option.none), q.2)
        | (_, pkv) :: _ =>
          if pkv.isNone then .ok ((name, Option.none), q.2)
          else .ok ((name, some (.mk p.1 q.1)), q.2)

def buildRels : RelDescs → List PyValue → Except PyErr (ObjCache × List PyValue)
  | .nil, vals => .ok (.nil, vals)
  | .cons d ds, vals =>
    match buildRel d vals with
    | .error e => .error e
    | .ok e =>
      match buildRels ds e.2 with
      | .error e2 => .error e2
      | .ok r =>
        match e.1 with
        | (name, Option.none) => .ok (.consNone name r.1, r.2)
        | (name, some o) => .ok (.consSome name o r.1, r.2)
end

/-- The select shape of one queryset: the main model's fields followed by
the `select_related` tree, in column order. -/
structure ModelDesc where
  fields : List FieldSpec
  rels : RelDescs

/-- Model of `model_cls.from_db` plus the related populators: build the
instance graph for one row of positional values. -/
def buildObjFromRow (md : ModelDesc) (vals : List PyValue) : Except PyErr Obj :=
  match convertFields md.fields vals with
  | .error e => .error e
  | .ok p =>
    match buildRels md.rels p.2 with
    | .error e => .error e
    | .ok q => .ok (.mk p.1 q.1)

/-! ## The service's field-level patch: `_transform_object_to_handle_json_agg` -/

/-- Model of Python `str()` on the attribute values that can reach the
`Decimal(str(...))` call. -/
def pyStrChars : PyValue → List Char
  | .float d => decChars d
  | .decimal d => decChars d
  | .int n => intChars n
  | .str s => s.data
  | .bool b => if b then "True".data else "False".data
  | _ => "<object>".data

/-- A character that can appear before the time separator of an ISO
datetime string. -/
def cleanDateChar (c : Char) : Bool := !(c = 'T' || c = ' ')

/-- `parse_datetime(s).date()`: keep the date part of an ISO string. -/
def datePart (s : String) : String :=
  String.mk (s.data.takeWhile cleanDateChar)

/-- The per-field corrections of `_transform_object_to_handle_json_agg`
(service lines 250-269): `Decimal(str(x))` for decimal fields, `UUID(x)`
for string-valued uuid fields, `parse_datetime(x).date()` for string-valued
date fields, `parse_datetime(x)` for string-valued datetime fields. -/
def transformFieldValue (kind : FieldKind) (v : PyValue) : Except PyErr PyValue :=
  match kind with
  | .decimalField =>
    if v.isNone then .ok v
    else
      match decParseChars (pyStrChars v) with
      | some d => .ok (.decimal d)
      | Option.none => .error .decimalInvalidOperation
  | .uuidField =>
    match v with
    | .str s => .ok (.uuid s)
    | v => .ok v
  | .dateField =>
    match v with
    | .str s => .ok (.date (datePart s))
    | v => .ok v
  | .dateTimeField =>
    match v with
    | .str s => .ok (.datetime s)
    | v => .ok v
  | _ => .ok v

def transformAttrs : List (FieldSpec × PyValue) → Except PyErr (List (FieldSpec × PyValue))
  | [] => .ok []
  | (f, v) :: rest =>
    match transformFieldValue f.kind v with
    | .error e => .error e
    | .ok v2 =>
      match transformAttrs rest with
      | .error e => .error e
      | .ok rest2 => .ok ((f, v2) :: rest2)

/-- `_transform_object_to_handle_json_agg` (service lines 242-270): fix up
the instance's own field attributes; `None` passes through (`if not obj`).
The instance's `fields_cache` is NOT touched by this function. -/
def transform_object_to_handle_json_agg : Option Obj → Except PyErr (Option Obj)
  | Option.none => .ok Option.none
  | some (.mk attrs cache) =>
    match transformAttrs attrs with
    | .error e => .error e
    | .ok attrs2 => .ok (some (.mk attrs2 cache))

/-- The loop over `obj._state.fields_cache` (service lines 350-356):
apply the field patch to each directly cached related instance.  Entries
one level deeper (caches of cached instances) are not visited. -/
def transformCacheEntries : ObjCache → Except PyErr ObjCache
  | .nil => .ok .nil
  | .consNone name rest =>
    match transformCacheEntries rest with
    | .error e => .error e
    | .ok rest2 => .ok (.consNone name rest2)
  | .consSome name o rest =>
    match transform_object_to_handle_json_agg (some o) with
    | .error e => .error e
    | .ok o2 =>
      match transformCacheEntries rest with
      | .error e => .error e
      | .ok rest2 =>
        match o2 with
        | some o3 => .ok (.consSome name o3 rest2)
        | Option.none => .ok (.consNone name rest2)

/-- The row-dict fixup at service lines 284-291: a dict or list value (a
JSON column that the driver decoded to a structure) is re-serialized to its
canonical text; every other value passes through. -/
def transformRowValue (v : PyValue) : PyValue :=
  if v.isDictOrList then .str (jsonDumps v) else v

def transformRowDict (row : List (String × PyValue)) : List (String × PyValue) :=
  row.map (fun kv => (kv.1, transformRowValue kv.2))

/-- The per-row body of `_get_instances_from_results_for_model_iterable`
(service lines 272-358): build the instance (`from_db` + populators +
converters), apply the field patch to it and then to each directly cached
related instance.  `known_related_objects` and annotations are not
modelled. -/
def instanceFromVals (md : ModelDesc) (vals : List PyValue) : Except PyErr Obj :=
  match buildObjFromRow md vals with
  | .error e => .error e
  | .ok obj =>
    match transform_object_to_handle_json_agg (some obj) with
    | .error e => .error e
    | .ok (some (.mk attrs cache)) =>
      match transformCacheEntries cache with
      | .error e => .error e
      | .ok cache2 => .ok (Obj.mk attrs cache2)
    | .ok Option.none => .error .typeError

def get_instances_from_results_for_model_iterable (md : ModelDesc)
    (results : List (List (String × PyValue))) : Except PyErr (List Obj) :=
  mapMExcept (instanceFromVals md)
    (results.map (fun row => (transformRowDict row).map Prod.snd))

/-! ## The count rewrite: `_get_fetch_count_compiler_from_queryset` -/

/-- An annotation on a Django query, as the count rewrite inspects it. -/
structure Annot where
  aliasName : String
  isSummary : Bool
  containsAggregate : Bool
deriving DecidableEq

/-- The `Count("*")` annotation added under alias `"__count"`. -/
def countAnnot : Annot := ⟨"__count", true, true⟩

/-- The structural state of a Django `sql.Query` that the count rewrite
reads and writes. -/
structure SqlQuery where
  annots : List Annot
  groupByIsTuple : Bool
  isSliced : Bool
  distinct : Bool
  combinator : Bool
  hasOrdering : Bool
  hasLimits : Bool
  selectForUpdate : Bool
  selectRelated : Bool
  defaultCols : Bool
  subquery : Bool
  groupByPk : Bool
  selectCount : Nat
  hasExtra : Bool
deriving DecidableEq

/-- A fresh `AggregateQuery` wrapped around a subquery. -/
def emptyAggregateQuery : SqlQuery :=
  ⟨[], false, false, false, false, false, false, false, false, false, false,
    false, 0, false⟩

/-- The compiler returned for a `QuerysetCountWrapper`: the database alias
it compiles for, the outer count query, and the inner subquery when the
rewrite had to wrap one. -/
structure CountCompiler where
  usingDb : String
  outer : SqlQuery
  inner : Option SqlQuery
deriving DecidableEq

/-- `_get_fetch_count_compiler_from_queryset` (service lines 78-170), the
copy of the ORM's `get_count`/`get_aggregation` rules: add `Count("*")` as
`"__count"`; when the query has a tuple `group_by`, slicing, pre-existing
annotations, `distinct` or a combinator, wrap it as a subquery inside an
`AggregateQuery`, moving summary annotations to the outer query; finally
clear ordering and limits on the outer query. -/
def get_fetch_count_compiler_from_queryset (q : SqlQuery) (usingDb : String) :
    CountCompiler :=
  let obj : SqlQuery := { q with annots := q.annots ++ [countAnnot] }
  let existingAnnots := q.annots
  let branch : SqlQuery × Option SqlQuery :=
    if q.groupByIsTuple || obj.isSliced || !existingAnnots.isEmpty ||
        obj.distinct || obj.combinator then
      let inner0 : SqlQuery :=
        { obj with subquery := true, selectForUpdate := false, selectRelated := false }
      -- clear_ordering(force=False): a sliced query keeps its ordering
      let inner1 : SqlQuery :=
        if inner0.isSliced then inner0 else { inner0 with hasOrdering := false }
      let hasExistingAggregate := existingAnnots.any (fun a => a.containsAggregate)
      let inner2 : SqlQuery :=
        if !inner1.distinct then
          let base : SqlQuery :=
            if inner1.defaultCols && hasExistingAggregate then
              { inner1 with groupByPk := true }
            else inner1
          { base with defaultCols := false }
        else inner1
      let movedOut := inner2.annots.filter (fun a => a.isSummary)
      let inner3 : SqlQuery :=
        { inner2 with annots := inner2.annots.filter (fun a => !a.isSummary) }
      let inner4 : SqlQuery :=
        if inner3.selectCount = 0 && !inner3.defaultCols && inner3.annots.isEmpty then
          { inner3 with selectCount := 1 }
        else inner3
      ({ emptyAggregateQuery with annots := movedOut }, some inner4)
    else
      ({ obj with selectCount := 0, defaultCols := false, hasExtra := false },
        Option.none)
  let outer : SqlQuery :=
    { branch.1 with
        hasOrdering := false
        hasLimits := false
        selectForUpdate := false
        selectRelated := false }
  ⟨usingDb, outer, branch.2⟩

/-! ## Querysets and wrappers -/

/-- The queryset iterable classes `_convert_raw_results_to_final_queryset_results`
dispatches on. -/
inductive IterableClass where
  | modelIterable
  | valuesIterable
  | flatValuesListIterable
  | valuesListIterable
  | otherIterable
deriving DecidableEq

/-- A Django queryset at the service's interface boundary: its database
alias, the structural query state, the outcome of compiling it
(`None` models `EmptyResultSet`), its iterable class, its select shape,
and the rows its query materializes on that database. -/
structure Queryset where
  db : String
  query : SqlQuery
  compiledSql : Option (String × List SqlParam)
  iterableClass : IterableClass
  modelDesc : ModelDesc
  rows : List (List (String × PgValue))

/-- Wrapper marking a count fetch (service lines 31-37). -/
structure QuerysetCountWrapper where
  queryset : Queryset

/-- Wrapper marking a get-or-none fetch (service lines 40-48). -/
structure QuerysetGetOrNoneWrapper where
  queryset : Queryset

/-- `QuerysetGetOrNoneWrapper.__init__`: `self.queryset = queryset[:1]`,
forcing a LIMIT 1 query at construction time. -/
def QuerysetGetOrNoneWrapper.make (qs : Queryset) : QuerysetGetOrNoneWrapper :=
  ⟨{ qs with
      rows := qs.rows.take 1
      query := { qs.query with isSliced := true, hasLimits := true } }⟩

/-- One aggregate field of an aggregate intent: its output name, the
declared aggregate's expected type, and its zero/identity value.

Modelled from the spec: `QuerysetAggregateWrapper` is not present in
`src/django_querysets_single_query_fetch/service.py` (only the tests import
it); spec sections 3, 4.2 and 4.5 describe the `Aggregate(query,
aggregate_spec)` intent variant. -/
structure AggFieldSpec where
  name : String
  kind : FieldKind
  identity : PyValue

/-- Modelled from the spec: the `Aggregate(query, aggregate_spec)` intent
variant, missing from `src/` (its tests construct
`QuerysetAggregateWrapper(queryset=..., **aggregate_dict)`). -/
structure QuerysetAggregateWrapper where
  queryset : Queryset
  aggregateSpec : List AggFieldSpec

/-- `QuerysetWrapperType` (service line 51), extended with the
spec-modelled aggregate variant: the tagged union of query intents. -/
inductive QuerysetWrapperType where
  | queryset (qs : Queryset)
  | countW (w : QuerysetCountWrapper)
  | getOrNoneW (w : QuerysetGetOrNoneWrapper)
  | aggregateW (w : QuerysetAggregateWrapper)

/-- The underlying Django queryset of any wrapper. -/
def QuerysetWrapperType.underlying : QuerysetWrapperType → Queryset
  | .queryset qs => qs
  | .countW w => w.queryset
  | .getOrNoneW w => w.queryset
  | .aggregateW w => w.queryset

/-- The compiler `_get_compiler_from_queryset` (service lines 172-189)
obtains: the count rewrite's compiler for a count wrapper, otherwise the
query's own compiler; in every case compiled `using` the queryset's own
database alias. -/
inductive CompilerChoice where
  | countCompiler (c : CountCompiler)
  | plainCompiler (usingDb : String)

def get_compiler_from_queryset : QuerysetWrapperType → CompilerChoice
  | .countW w =>
    .countCompiler (get_fetch_count_compiler_from_queryset w.queryset.query w.queryset.db)
  | .getOrNoneW w => .plainCompiler w.queryset.db
  | .queryset qs => .plainCompiler qs.db
  | .aggregateW w => .plainCompiler w.queryset.db

def CompilerChoice.usingDb : CompilerChoice → String
  | .countCompiler c => c.usingDb
  | .plainCompiler d => d

/-- Model of `compiler.as_sql(with_col_aliases=True)` for a wrapper: the
underlying queryset's compiled SQL and parameters.  The count rewrite
compiles with the same parameters and raises `EmptyResultSet` exactly when
the underlying query does. -/
def wrapperCompiledSql (w : QuerysetWrapperType) : Option (String × List SqlParam) :=
  w.underlying.compiledSql

/-- `sql % quoted_params`: splice the quoted literals into the `%s`
placeholders positionally. -/
def interpolateChars : List Char → List String → List Char
  | [], _ => []
  | '%' :: 's' :: rest, p :: ps => p.data ++ interpolateChars rest ps
  | c :: rest, ps =>
    match c, rest with
    | c, rest => c :: interpolateChars rest ps

/-- `_get_django_sql_for_queryset` (service lines 204-240): empty string
for a statically empty query, otherwise the parameter-inlined SQL wrapped
in the `COALESCE(json_agg(...), '[]')` subquery expression. -/
def get_django_sql_for_queryset (w : QuerysetWrapperType) : Except PyErr String :=
  match wrapperCompiledSql w with
  | Option.none => .ok ""
  | some (sqlText, params) =>
    match mapMExcept quoteParam params with
    | .error e => .error e
    | .ok quoted =>
      .ok ("(SELECT COALESCE(json_agg(item), '[]') FROM ("
        ++ String.mk (interpolateChars sqlText.data quoted) ++ ") item)")

/-! ## The engine and the combined statement -/

/-- The engine's evaluation of one non-empty fragment of the combined
statement, as decoded by the driver: `json_agg` turns the fragment query's
rows into an array of row objects; a count fragment yields the single
`{"__count": n}` row where `n` is the number of rows the underlying query
materializes; an aggregate fragment yields its single result row. -/
def fragmentPyRows : QuerysetWrapperType → List (List (String × PyValue))
  | .queryset qs => qs.rows.map (fun row => row.map (fun cv => (cv.1, pgToPy cv.2)))
  | .getOrNoneW w => w.queryset.rows.map (fun row => row.map (fun cv => (cv.1, pgToPy cv.2)))
  | .countW w => [[("__count", .int (w.queryset.rows.length))]]
  | .aggregateW w =>
    (w.queryset.rows.take 1).map (fun row => row.map (fun cv => (cv.1, pgToPy cv.2)))

/-! ## Rehydration of raw results -/

/-- One element of a rehydrated row-fetch result. -/
inductive ResultElem where
  | obj (o : Obj)
  | row (r : List (String × PyValue))
  | scalar (v : PyValue)
  | tup (t : List PyValue)
deriving DecidableEq

/-- A rehydrated per-intent result. -/
inductive FetchResult where
  | many (l : List ResultElem)
  | one (e : Option ResultElem)
  | countVal (v : PyValue)
  | aggVal (fs : List (String × PyValue))
deriving DecidableEq

/-- The iterable-class dispatch of
`_convert_raw_results_to_final_queryset_results` (service lines 371-388). -/
def iterableResults (qs : Queryset) (raw : List (List (String × PyValue))) :
    Except PyErr (List ResultElem) :=
  match qs.iterableClass with
  | .modelIterable =>
    match get_instances_from_results_for_model_iterable qs.modelDesc raw with
    | .error e => .error e
    | .ok objs => .ok (objs.map ResultElem.obj)
  | .valuesIterable => .ok (raw.map ResultElem.row)
  | .flatValuesListIterable =>
    mapMExcept (fun row =>
      match row.map Prod.snd with
      | v :: _ => .ok (ResultElem.scalar v)
      | [] => .error .lookupError) raw
  | .valuesListIterable => .ok (raw.map (fun row => ResultElem.tup (row.map Prod.snd)))
  | .otherIterable => .error (.valueError "Unsupported queryset iterable class")

/-- Coercion of one aggregate output field.

Modelled from the spec: "the JSON object's field values, each coerced by
the declared aggregate's expected numeric/temporal type". -/
def aggKindFor (spec : List AggFieldSpec) (name : String) : FieldKind :=
  match spec.find? (fun a => a.name == name) with
  | some a => a.kind
  | Option.none => .otherField

/-- `_convert_raw_results_to_final_queryset_results` (service lines
360-394), with the spec-modelled aggregate branch. -/
def convert_raw_results_to_final_queryset_results (w : QuerysetWrapperType)
    (raw : List (List (String × PyValue))) : Except PyErr FetchResult :=
  match w with
  | .countW _ =>
    match raw with
    | [] => .error .lookupError
    | row :: _ =>
      match row.find? (fun kv => kv.1 == "__count") with
      | some kv => .ok (.countVal kv.2)
      | Option.none => .error .lookupError
  | .getOrNoneW gw =>
    match iterableResults gw.queryset raw with
    | .error e => .error e
    | .ok elems => .ok (.one elems.head?)
  | .queryset qs =>
    match iterableResults qs raw with
    | .error e => .error e
    | .ok elems => .ok (.many elems)
  | .aggregateW aw =>
    match raw with
    | [] => .error .lookupError
    | row :: _ =>
      match mapMExcept (fun kv =>
          match transformFieldValue (aggKindFor aw.aggregateSpec kv.1) kv.2 with
          | .error e => .error e
          | .ok v => .ok (kv.1, v)) row with
      | .error e => .error e
      | .ok coerced => .ok (.aggVal coerced)

/-- `_get_empty_queryset_value` (service lines 396-407): the result
substituted for a statically empty intent, never consulting the batch
response.  The aggregate branch is modelled from the spec: "the
aggregate's zero/identity values". -/
def get_empty_queryset_value : QuerysetWrapperType → FetchResult
  | .countW _ => .countVal (.int 0)
  | .getOrNoneW _ => .one Option.none
  | .aggregateW aw => .aggVal (aw.aggregateSpec.map (fun a => (a.name, a.identity)))
  | .queryset _ => .many []

/-! ## `execute` -/

/-- One executed statement: the connection alias it ran on. -/
structure ExecRecord where
  connectionAlias : String
deriving DecidableEq

/-- The demultiplexing loop of `execute` (service lines 417-457): empty
fragments take their precomputed empty value; each non-empty fragment takes
the batch response entry at its sequential index, rehydrated. -/
def demuxResults (nonEmptyWrappers : List QuerysetWrapperType) :
    List (QuerysetWrapperType × String) → Nat → Except PyErr (List FetchResult)
  | [], _ => .ok []
  | (w, sqlText) :: rest, index =>
    if sqlText = "" then
      match demuxResults nonEmptyWrappers rest index with
      | .error e => .error e
      | .ok tail => .ok (get_empty_queryset_value w :: tail)
    else
      match nonEmptyWrappers.get? index with
      | Option.none => .error .lookupError
      | some wFrag =>
        match convert_raw_results_to_final_queryset_results w (fragmentPyRows wFrag) with
        | .error e => .error e
        | .ok r =>
          match demuxResults nonEmptyWrappers rest (index + 1) with
          | .error e => .error e
          | .ok tail => .ok (r :: tail)

/-- `QuerysetsSingleQueryFetch.execute` (service lines 409-459): compile
every intent, combine the non-empty fragments into the single
`json_build_object` statement executed once on `connections["default"]`
(zero executions when every fragment is empty), and demultiplex the
response back into one result per intent, in order.  The returned trace
records each statement execution with its connection alias. -/
def execute (querysets : List QuerysetWrapperType) :
    Except PyErr (List FetchResult) × List ExecRecord :=
  match mapMExcept get_django_sql_for_queryset querysets with
  | .error e => (.error e, [])
  | .ok djangoSqls =>
    let pairs := querysets.zip djangoSqls
    let nonEmptyWrappers := (pairs.filter (fun p => p.2 ≠ "")).map Prod.fst
    (demuxResults nonEmptyWrappers pairs 0,
      if nonEmptyWrappers.isEmpty then [] else [ExecRecord.mk "default"])

/-- The result a single intent produces on its own: its empty value when
statically empty, otherwise the rehydration of its own fragment's rows.
`execute` computes exactly this for every intent of a batch. -/
def rehydrateStandalone (w : QuerysetWrapperType) : Except PyErr FetchResult :=
  match get_django_sql_for_queryset w with
  | .error e => .error e
  | .ok s =>
    if s = "" then .ok (get_empty_queryset_value w)
    else convert_raw_results_to_final_queryset_results w (fragmentPyRows w)

/-! ## The demultiplexing argument -/

theorem mapMExcept_ok {α β : Type} {f : α → Except PyErr β} :
    ∀ {l : List α} {l' : List β}, mapMExcept f l = .ok l' →
      l'.length = l.length ∧ ∀ p ∈ l.zip l', f p.1 = .ok p.2 := by
  intro l
  induction l with
  | nil =>
    intro l' h
    simp [mapMExcept] at h
    subst h
    simp
  | cons a as ih =>
    intro l' h
    simp only [mapMExcept] at h
    cases hfa : f a with
    | error e => rw [hfa] at h; simp at h
    | ok b =>
      rw [hfa] at h
      cases hrec : mapMExcept f as with
      | error e => rw [hrec] at h; simp at h
      | ok bs =>
        rw [hrec] at h
        simp only at h
        injection h with h
        subst h
        obtain ⟨hlen, hall⟩ := ih hrec
        refine ⟨by simp [hlen], ?_⟩
        intro p hp
        simp only [List.zip_cons_cons, List.mem_cons] at hp
        rcases hp with rfl | hp
        · exact hfa
        · exact hall p hp

theorem mapMExcept_map {α β γ : Type} (g : γ → α) (f : α → Except PyErr β) :
    ∀ l : List γ, mapMExcept f (l.map g) = mapMExcept (fun c => f (g c)) l := by
  intro l
  induction l with
  | nil => rfl
  | cons a as ih => simp only [List.map_cons, mapMExcept, ih]

theorem get?_eq_head?_drop {α : Type} (l : List α) (n : Nat) :
    l.get? n = (l.drop n).head? := by
  induction l generalizing n with
  | nil => simp
  | cons a l ih =>
    cases n with
    | zero => simp
    | succ n => simpa using ih n

/-- The demultiplexing loop computes, for every intent of the batch, the
intent's standalone result: empty fragments take their empty value without
consulting the response, and the sequential-index bookkeeping pairs each
non-empty fragment with exactly its own response entry. -/
theorem demux_eq_standalone (NE : List QuerysetWrapperType) :
    ∀ (pairs : List (QuerysetWrapperType × String)) (idx : Nat),
    (∀ p ∈ pairs, get_django_sql_for_queryset p.1 = .ok p.2) →
    NE.drop idx = (pairs.filter (fun p => p.2 ≠ "")).map Prod.fst →
    demuxResults NE pairs idx = mapMExcept (fun p => rehydrateStandalone p.1) pairs := by
  intro pairs
  induction pairs with
  | nil => intro idx _ _; rfl
  | cons ws rest ih =>
    intro idx hok hdrop
    obtain ⟨w, s⟩ := ws
    have hws : get_django_sql_for_queryset w = .ok s := hok (w, s) (by simp)
    have hokRest : ∀ p ∈ rest, get_django_sql_for_queryset p.1 = .ok p.2 :=
      fun p hp => hok p (by simp [hp])
    by_cases hs : s = ""
    · subst hs
      have hfilter : (((w, "") :: rest).filter (fun p => p.2 ≠ "")) =
          rest.filter (fun p => p.2 ≠ "") := by
        simp [List.filter]
      rw [hfilter] at hdrop
      have hrec := ih idx hokRest hdrop
      have hstand : rehydrateStandalone w = .ok (get_empty_queryset_value w) := by
        simp [rehydrateStandalone, hws]
      simp only [demuxResults, eq_self_iff_true, if_true, mapMExcept, hstand, hrec]
      cases mapMExcept (fun p => rehydrateStandalone p.1) rest <;> rfl
    · have hfilter : (((w, s) :: rest).filter (fun p => p.2 ≠ "")) =
          (w, s) :: rest.filter (fun p => p.2 ≠ "") := by
        simp [List.filter, hs]
      rw [hfilter] at hdrop
      have hget : NE.get? idx = some w := by
        rw [get?_eq_head?_drop, hdrop]
        simp
      have hdrop2 : NE.drop (idx + 1) =
          (rest.filter (fun p => p.2 ≠ "")).map Prod.fst := by
        have ht : (NE.drop idx).tail = NE.drop (idx + 1) := by
          rw [← List.drop_drop]
          simp [List.drop_one]
        rw [← ht, hdrop]
        simp
      have hrec := ih (idx + 1) hokRest hdrop2
      have hstand : rehydrateStandalone w =
          convert_raw_results_to_final_queryset_results w (fragmentPyRows w) := by
        simp [rehydrateStandalone, hws, hs]
      simp only [demuxResults, if_neg hs, hget, mapMExcept, hstand, hrec]
      cases convert_raw_results_to_final_queryset_results w (fragmentPyRows w) with
      | error e => rfl
      | ok r => cases mapMExcept (fun p => rehydrateStandalone p.1) rest <;> rfl

/-- A successful `execute` returns exactly the list of per-intent
standalone results, in input order. -/
theorem execute_ok_mapM (qss : List QuerysetWrapperType)
    (res : List FetchResult) (h : (execute qss).1 = .ok res) :
    mapMExcept rehydrateStandalone qss = .ok res := by
  unfold execute at h
  cases hsqls : mapMExcept get_django_sql_for_queryset qss with
  | error e => rw [hsqls] at h; simp at h
  | ok sqls =>
    rw [hsqls] at h
    simp only at h
    obtain ⟨hlen, hall⟩ := mapMExcept_ok hsqls
    have hmap : (qss.zip sqls).map Prod.fst = qss :=
      List.map_fst_zip qss sqls (by omega)
    have hdemux := demux_eq_standalone
      (((qss.zip sqls).filter (fun p => p.2 ≠ "")).map Prod.fst)
      (qss.zip sqls) 0 hall (by simp)
    rw [hdemux] at h
    have : mapMExcept (fun p => rehydrateStandalone p.1) (qss.zip sqls) =
        mapMExcept rehydrateStandalone qss := by
      have := mapMExcept_map Prod.fst rehydrateStandalone (qss.zip sqls)
      rw [hmap] at this
      exact this.symm
    rw [← this]
    exact h

/-! ## The non-batched direct path (refinement reference)

Modelled from the spec: "for any RowFetch intent evaluated alone,
`execute([intent])[0]` equals evaluating that same logical query through
the non-batched direct path", i.e. `list(queryset)`.  On the direct path
the driver returns typed column values (exact decimals, UUID objects,
datetime objects; JSON columns as their stored text, which the JSON field
converter then decodes), and the same `from_db`/populator machinery builds
the instances. -/
def directConvert : PgValue → PyValue
  | .int n => .int n
  | .text s => .str s
  | .numeric d => .decimal d
  | .uuid s => .uuid s
  | .timestamp s => .datetime s
  | .date s => .date s
  | .jsonb j => .str (jsonDumps j)
  | .bool b => .bool b
  | .null => .pynone

/-- Modelled from the spec: `list(queryset)` for a plain (entity-shaped)
queryset — build each materialized row into an instance through the direct,
non-batched driver representation. -/
def list_queryset (qs : Queryset) : Except PyErr (List Obj) :=
  mapMExcept
    (fun row => buildObjFromRow qs.modelDesc ((row.map Prod.snd).map directConvert))
    qs.rows

/-! ## Well-formed source rows

A `SrcRow` is one materialized row in the nested shape of its select
graph: the main model's column values and, per `select_related` branch,
that relation's values and its own nested branches.  Flattening yields the
flat column order the engine emits. -/

mutual
inductive SrcRel where
  | mk (vals : List PgValue) (subs : SrcRels)

inductive SrcRels where
  | nil
  | cons (r : SrcRel) (rs : SrcRels)
end

deriving instance DecidableEq for SrcRel, SrcRels

structure SrcRow where
  vals : List PgValue
  rels : SrcRels
deriving DecidableEq

mutual
def flattenR : SrcRel → List PgValue
  | .mk vals subs => vals ++ flattenRs subs

def flattenRs : SrcRels → List PgValue
  | .nil => []
  | .cons r rs => flattenR r ++ flattenRs rs
end

def flattenRow (r : SrcRow) : List PgValue := r.vals ++ flattenRs r.rels

/-- A column value is well-typed for its declared field kind.  A date
column's text must be a bare date (no time separator) and a JSON column
must hold a JSON object or array of JSON-decodable values. -/
def wfValue : FieldKind → PgValue → Bool
  | .decimalField, .numeric _ => true
  | .decimalField, .null => true
  | .uuidField, .uuid _ => true
  | .uuidField, .null => true
  | .dateField, .date s => s.data.all cleanDateChar
  | .dateField, .null => true
  | .dateTimeField, .timestamp _ => true
  | .dateTimeField, .null => true
  | .jsonField, .jsonb j => j.isDictOrList && isJsonableV j
  | .jsonField, .null => true
  | .otherField, .int _ => true
  | .otherField, .text _ => true
  | .otherField, .bool _ => true
  | .otherField, .null => true
  | _, _ => false

def wfVals (fs : List FieldSpec) (vs : List PgValue) : Bool :=
  vs.length = fs.length && (fs.zip vs).all (fun p => wfValue p.1.kind p.2)

mutual
def wfRel : RelDesc → SrcRel → Bool
  | .mk _ fields subs, .mk vals rs => wfVals fields vals && wfRels subs rs

def wfRels : RelDescs → SrcRels → Bool
  | .nil, .nil => true
  | .cons d ds, .cons r rs => wfRel d r && wfRels ds rs
  | _, _ => false
end

def wfRow (md : ModelDesc) (r : SrcRow) : Bool :=
  wfVals md.fields r.vals && wfRels md.rels r.rels

/-- Field kinds the batched JSON round trip does not disturb: JSON columns
(corrected positionally by the column converters) and everything preserved
verbatim by JSON (ints, text, booleans, nulls). -/
def coercionFreeKind : FieldKind → Bool
  | .jsonField => true
  | .otherField => true
  | _ => false

def coercionFree (fs : List FieldSpec) : Bool :=
  fs.all (fun f => coercionFreeKind f.kind)

mutual
def relAllCoercionFree : RelDesc → Bool
  | .mk _ fields subs => coercionFree fields && relsAllCoercionFree subs

def relsAllCoercionFree : RelDescs → Bool
  | .nil => true
  | .cons d ds => relAllCoercionFree d && relsAllCoercionFree ds
end

/-- Every relation deeper than one level carries only coercion-free
fields: the boundary up to which the service's field patch reaches. -/
def relsSubsCoercionFree : RelDescs → Bool
  | .nil => true
  | .cons (.mk _ _ subs) ds => relsAllCoercionFree subs && relsSubsCoercionFree ds

/-! ## Per-column equivalence of the two paths -/

/-- The value of a column after the batched decode (`json_agg`, driver,
row-dict re-serialization) and the field converter. -/
def midVal (k : FieldKind) (v : PgValue) : PyValue :=
  match k, v with
  | .jsonField, .jsonb j => j
  | _, _ => pgToPy v

/-- The value of a column after the direct decode and the field converter:
what the non-batched path stores on the instance. -/
def dirVal (k : FieldKind) (v : PgValue) : PyValue :=
  match k, v with
  | .jsonField, .jsonb j => j
  | _, _ => directConvert v

theorem transformRowValue_pgToPy_not_json (v : PgValue)
    (h : ∀ j, v ≠ .jsonb j) : transformRowValue (pgToPy v) = pgToPy v := by
  cases v <;> simp [pgToPy, transformRowValue, PyValue.isDictOrList]
  exact absurd rfl (h _)

theorem applyDbConverter_batch (k : FieldKind) (v : PgValue)
    (h : wfValue k v = true) :
    applyDbConverter k (transformRowValue (pgToPy v)) = .ok (midVal k v) := by
  cases k <;> cases v <;>
    simp_all [wfValue, pgToPy, transformRowValue, PyValue.isDictOrList,
      applyDbConverter, midVal]
  case jsonField.jsonb j =>
    obtain ⟨hdl, hj⟩ := h
    have hload := jsonLoads_jsonDumps j hj
    cases j <;> simp_all [PyValue.isDictOrList, jsonDumps]

theorem applyDbConverter_direct (k : FieldKind) (v : PgValue)
    (h : wfValue k v = true) :
    applyDbConverter k (directConvert v) = .ok (dirVal k v) := by
  cases k <;> cases v <;>
    simp_all [wfValue, directConvert, applyDbConverter, dirVal]
  case jsonField.jsonb j =>
    obtain ⟨hdl, hj⟩ := h
    have hload := jsonLoads_jsonDumps j hj
    simp_all [jsonDumps]

theorem datePart_of_clean (s : String)
    (h : s.data.all cleanDateChar = true) : datePart s = s := by
  have ht : s.data.takeWhile cleanDateChar = s.data :=
    List.takeWhile_eq_self_iff.mpr (List.all_eq_true.mp h)
  simp [datePart, ht]

theorem transform_midVal (k : FieldKind) (v : PgValue)
    (h : wfValue k v = true) :
    transformFieldValue k (midVal k v) = .ok (dirVal k v) := by
  cases k <;> cases v <;>
    simp_all [wfValue, pgToPy, midVal, dirVal, directConvert,
      transformFieldValue, PyValue.isNone, pyStrChars, decParseChars_decChars]
  case dateField.date s => exact datePart_of_clean s (List.all_eq_true.mpr h)

theorem isNone_midVal_dirVal (k : FieldKind) (v : PgValue)
    (h : wfValue k v = true) :
    (midVal k v).isNone = (dirVal k v).isNone := by
  cases k <;> cases v <;>
    simp_all [wfValue, pgToPy, midVal, dirVal, directConvert, PyValue.isNone]

theorem midVal_eq_dirVal_coercionFree (k : FieldKind) (v : PgValue)
    (hk : coercionFreeKind k = true) (h : wfValue k v = true) :
    midVal k v = dirVal k v := by
  cases k <;> cases v <;>
    simp_all [coercionFreeKind, wfValue, pgToPy, midVal, dirVal, directConvert]

/-! ## Lifting the per-column equivalence to rows and object graphs -/

/-- Attributes built with a given per-column value function. -/
def attrsWith (valF : FieldKind → PgValue → PyValue)
    (fs : List FieldSpec) (vs : List PgValue) : List (FieldSpec × PyValue) :=
  List.zipWith (fun f v => (f, valF f.kind v)) fs vs

mutual
/-- The relation cache built with a given per-column value function,
mirroring `buildRel`/`buildRels`. -/
def cacheWith (valF : FieldKind → PgValue → PyValue) :
    RelDescs → SrcRels → ObjCache
  | .nil, _ => .nil
  | .cons _ _, .nil => .nil
  | .cons d ds, .cons r rs =>
    match relWith valF d r with
    | (name, Option.none) => .consNone name (cacheWith valF ds rs)
    | (name, some o) => .consSome name o (cacheWith valF ds rs)

def relWith (valF : FieldKind → PgValue → PyValue) :
    RelDesc → SrcRel → String × Option Obj
  | .mk name fields subs, .mk vals rs =>
    let attrs := attrsWith valF fields vals
    match attrs with
    | [] => (name, Option.none)
    | (_, pkv) :: _ =>
      if pkv.isNone then (name, Option.none)
      else (name, some (.mk attrs (cacheWith valF subs rs)))
end

theorem wfVals_cons {f : FieldSpec} {fs : List FieldSpec} {v : PgValue}
    {vs : List PgValue} (h : wfVals (f :: fs) (v :: vs) = true) :
    wfValue f.kind v = true ∧ wfVals fs vs = true := by
  simp only [wfVals, List.length_cons, List.zip_cons_cons, List.all_cons,
    Bool.and_eq_true, decide_eq_true_eq] at h ⊢
  exact ⟨h.2.1, by omega, h.2.2⟩

theorem wfVals_nil_right {fs : List FieldSpec} (h : wfVals fs [] = true) : fs = [] := by
  cases fs with
  | nil => rfl
  | cons f fs => simp [wfVals] at h

theorem wfVals_nil_left {vs : List PgValue} (h : wfVals [] vs = true) : vs = [] := by
  cases vs with
  | nil => rfl
  | cons v vs => simp [wfVals] at h

/-- `convertFields` on batch-decoded values produces `midVal` attributes
and leaves the remaining columns untouched. -/
theorem convertFields_batch :
    ∀ (fs : List FieldSpec) (vs : List PgValue) (rest : List PyValue),
    wfVals fs vs = true →
    convertFields fs (vs.map (fun v => transformRowValue (pgToPy v)) ++ rest) =
      .ok (attrsWith midVal fs vs, rest) := by
  intro fs
  induction fs with
  | nil =>
    intro vs rest h
    rw [wfVals_nil_left h]
    rfl
  | cons f fs ih =>
    intro vs rest h
    cases vs with
    | nil => exact absurd (wfVals_nil_right h) (by simp)
    | cons v vs =>
      obtain ⟨h1, h2⟩ := wfVals_cons h
      simp only [List.map_cons, List.cons_append, convertFields,
        applyDbConverter_batch f.kind v h1, List.append_eq, ih vs rest h2,
        attrsWith, List.zipWith_cons_cons]

/-- `convertFields` on directly decoded values produces `dirVal`
attributes. -/
theorem convertFields_direct :
    ∀ (fs : List FieldSpec) (vs : List PgValue) (rest : List PyValue),
    wfVals fs vs = true →
    convertFields fs (vs.map directConvert ++ rest) =
      .ok (attrsWith dirVal fs vs, rest) := by
  intro fs
  induction fs with
  | nil =>
    intro vs rest h
    rw [wfVals_nil_left h]
    rfl
  | cons f fs ih =>
    intro vs rest h
    cases vs with
    | nil => exact absurd (wfVals_nil_right h) (by simp)
    | cons v vs =>
      obtain ⟨h1, h2⟩ := wfVals_cons h
      simp only [List.map_cons, List.cons_append, convertFields,
        applyDbConverter_direct f.kind v h1, List.append_eq, ih vs rest h2,
        attrsWith, List.zipWith_cons_cons]

/-- The service's field patch turns `midVal` attributes into `dirVal`
attributes. -/
theorem transformAttrs_mid :
    ∀ (fs : List FieldSpec) (vs : List PgValue), wfVals fs vs = true →
    transformAttrs (attrsWith midVal fs vs) = .ok (attrsWith dirVal fs vs) := by
  intro fs
  induction fs with
  | nil =>
    intro vs h
    rw [wfVals_nil_left h]
    rfl
  | cons f fs ih =>
    intro vs h
    cases vs with
    | nil => exact absurd (wfVals_nil_right h) (by simp)
    | cons v vs =>
      obtain ⟨h1, h2⟩ := wfVals_cons h
      have ih2 := ih vs h2
      simp only [attrsWith] at ih2
      simp only [attrsWith, List.zipWith_cons_cons, transformAttrs,
        transform_midVal f.kind v h1, ih2]

/-- Without coercion-sensitive kinds the two value functions agree. -/
theorem attrsWith_eq_coercionFree :
    ∀ (fs : List FieldSpec) (vs : List PgValue), coercionFree fs = true →
    wfVals fs vs = true → attrsWith midVal fs vs = attrsWith dirVal fs vs := by
  intro fs
  induction fs with
  | nil => intro vs _ _; rfl
  | cons f fs ih =>
    intro vs hfree h
    cases vs with
    | nil => rfl
    | cons v vs =>
      obtain ⟨h1, h2⟩ := wfVals_cons h
      simp only [coercionFree, List.all_cons, Bool.and_eq_true] at hfree
      simp only [attrsWith, List.zipWith_cons_cons,
        midVal_eq_dirVal_coercionFree f.kind v hfree.1 h1]
      have := ih vs hfree.2 h2
      simp only [attrsWith] at this
      rw [this]

theorem buildRels_batch : ∀ (ds : RelDescs) (rs : SrcRels) (rest : List PyValue),
    wfRels ds rs = true →
    buildRels ds ((flattenRs rs).map (fun v => transformRowValue (pgToPy v)) ++ rest) =
      .ok (cacheWith midVal ds rs, rest)
  | .nil, .nil, rest, _ => rfl
  | .nil, .cons _ _, rest, h => by simp [wfRels] at h
  | .cons _ _, .nil, rest, h => by simp [wfRels] at h
  | .cons (.mk name fields subs) ds2, .cons (.mk vals srs) rs2, rest, h => by
    simp only [wfRels, wfRel, Bool.and_eq_true] at h
    obtain ⟨⟨hvals, hsubs⟩, hds⟩ := h
    have hsplit : (flattenRs (.cons (.mk vals srs) rs2)).map
        (fun v => transformRowValue (pgToPy v)) ++ rest =
        vals.map (fun v => transformRowValue (pgToPy v)) ++
          ((flattenRs srs).map (fun v => transformRowValue (pgToPy v)) ++
            ((flattenRs rs2).map (fun v => transformRowValue (pgToPy v)) ++ rest)) := by
      simp [flattenRs, flattenR, List.map_append]
    rw [hsplit]
    have hsub := buildRels_batch subs srs
      ((flattenRs rs2).map (fun v => transformRowValue (pgToPy v)) ++ rest) hsubs
    have htail := buildRels_batch ds2 rs2 rest hds
    cases hattrs : attrsWith midVal fields vals with
    | nil =>
      simp only [buildRels, buildRel, convertFields_batch fields vals _ hvals,
        hattrs, hsub, htail, cacheWith, relWith]
    | cons a as =>
      obtain ⟨af, av⟩ := a
      by_cases hnone : av.isNone
      · simp only [buildRels, buildRel, convertFields_batch fields vals _ hvals,
          hattrs, hsub, htail, cacheWith, relWith, hnone, if_true]
      · simp only [buildRels, buildRel, convertFields_batch fields vals _ hvals,
          hattrs, hsub, htail, cacheWith, relWith, hnone, if_false,
          Bool.false_eq_true]
termination_by ds _ _ _ => sizeOf ds

theorem buildRels_direct : ∀ (ds : RelDescs) (rs : SrcRels) (rest : List PyValue),
    wfRels ds rs = true →
    buildRels ds ((flattenRs rs).map directConvert ++ rest) =
      .ok (cacheWith dirVal ds rs, rest)
  | .nil, .nil, rest, _ => rfl
  | .nil, .cons _ _, rest, h => by simp [wfRels] at h
  | .cons _ _, .nil, rest, h => by simp [wfRels] at h
  | .cons (.mk name fields subs) ds2, .cons (.mk vals srs) rs2, rest, h => by
    simp only [wfRels, wfRel, Bool.and_eq_true] at h
    obtain ⟨⟨hvals, hsubs⟩, hds⟩ := h
    have hsplit : (flattenRs (.cons (.mk vals srs) rs2)).map directConvert ++ rest =
        vals.map directConvert ++
          ((flattenRs srs).map directConvert ++
            ((flattenRs rs2).map directConvert ++ rest)) := by
      simp [flattenRs, flattenR, List.map_append]
    rw [hsplit]
    have hsub := buildRels_direct subs srs
      ((flattenRs rs2).map directConvert ++ rest) hsubs
    have htail := buildRels_direct ds2 rs2 rest hds
    cases hattrs : attrsWith dirVal fields vals with
    | nil =>
      simp only [buildRels, buildRel, convertFields_direct fields vals _ hvals,
        hattrs, hsub, htail, cacheWith, relWith]
    | cons a as =>
      obtain ⟨af, av⟩ := a
      by_cases hnone : av.isNone
      · simp only [buildRels, buildRel, convertFields_direct fields vals _ hvals,
          hattrs, hsub, htail, cacheWith, relWith, hnone, if_true]
      · simp only [buildRels, buildRel, convertFields_direct fields vals _ hvals,
          hattrs, hsub, htail, cacheWith, relWith, hnone, if_false,
          Bool.false_eq_true]
termination_by ds _ _ _ => sizeOf ds

theorem cacheWith_eq_coercionFree : ∀ (ds : RelDescs) (rs : SrcRels),
    relsAllCoercionFree ds = true → wfRels ds rs = true →
    cacheWith midVal ds rs = cacheWith dirVal ds rs
  | .nil, .nil, _, _ => rfl
  | .nil, .cons _ _, _, h => by simp [wfRels] at h
  | .cons _ _, .nil, _, h => by simp [wfRels] at h
  | .cons (.mk name fields subs) ds2, .cons (.mk vals srs) rs2, hfree, h => by
    simp only [wfRels, wfRel, Bool.and_eq_true] at h
    obtain ⟨⟨hvals, hsubs⟩, hds⟩ := h
    simp only [relsAllCoercionFree, relAllCoercionFree, Bool.and_eq_true] at hfree
    obtain ⟨⟨hfFields, hfSubs⟩, hfTail⟩ := hfree
    have hattrs := attrsWith_eq_coercionFree fields vals hfFields hvals
    have hinner := cacheWith_eq_coercionFree subs srs hfSubs hsubs
    have htail := cacheWith_eq_coercionFree ds2 rs2 hfTail hds
    simp only [cacheWith, relWith, hattrs, hinner, htail]
termination_by ds _ _ _ => sizeOf ds

theorem transformCache_mid : ∀ (ds : RelDescs) (rs : SrcRels),
    wfRels ds rs = true → relsSubsCoercionFree ds = true →
    transformCacheEntries (cacheWith midVal ds rs) = .ok (cacheWith dirVal ds rs)
  | .nil, .nil, _, _ => rfl
  | .nil, .cons _ _, h, _ => by simp [wfRels] at h
  | .cons _ _, .nil, h, _ => by simp [wfRels] at h
  | .cons (.mk name fields subs) ds2, .cons (.mk vals srs) rs2, h, hfree => by
    simp only [wfRels, wfRel, Bool.and_eq_true] at h
    obtain ⟨⟨hvals, hsubs⟩, hds⟩ := h
    simp only [relsSubsCoercionFree, Bool.and_eq_true] at hfree
    obtain ⟨hfSubs, hfTail⟩ := hfree
    have htail := transformCache_mid ds2 rs2 hds hfTail
    have hinner := cacheWith_eq_coercionFree subs srs hfSubs hsubs
    cases fields with
    | nil =>
      have hv0 : vals = [] := wfVals_nil_left hvals
      subst hv0
      simp only [cacheWith, relWith, attrsWith, List.zipWith_nil_left,
        transformCacheEntries, htail]
    | cons f0 fs =>
      cases vals with
      | nil => exact absurd (wfVals_nil_right hvals) (by simp)
      | cons v0 vs =>
        obtain ⟨h1, h2⟩ := wfVals_cons hvals
        have hnoneEq := isNone_midVal_dirVal f0.kind v0 h1
        by_cases hnone : (midVal f0.kind v0).isNone
        · have hnoneD : (dirVal f0.kind v0).isNone = true := by
            rw [← hnoneEq]; exact hnone
          simp only [cacheWith, relWith, attrsWith, List.zipWith_cons_cons,
            hnone, hnoneD, if_true, transformCacheEntries, htail]
        · have hnoneD : ¬ (dirVal f0.kind v0).isNone = true := by
            rw [← hnoneEq]; exact hnone
          have hta := transformAttrs_mid (f0 :: fs) (v0 :: vs) hvals
          simp only [attrsWith, List.zipWith_cons_cons] at hta
          simp only [cacheWith, relWith, attrsWith, List.zipWith_cons_cons,
            hnone, hnoneD, if_false, Bool.false_eq_true, transformCacheEntries,
            transform_object_to_handle_json_agg, hta, htail, hinner]
termination_by ds _ _ _ => sizeOf ds

/-- Per-row equivalence: the batched pipeline's instance (build, field
patch, depth-one cache patch) equals the direct path's instance, provided
relations beyond one level carry only coercion-free fields. -/
theorem instance_batch_eq_direct (md : ModelDesc) (t : SrcRow)
    (hwf : wfRow md t = true) (hfree : relsSubsCoercionFree md.rels = true) :
    instanceFromVals md ((flattenRow t).map (fun v => transformRowValue (pgToPy v))) =
      buildObjFromRow md ((flattenRow t).map directConvert) := by
  obtain ⟨vals, rels⟩ := t
  simp only [wfRow, Bool.and_eq_true] at hwf
  obtain ⟨hvals, hrels⟩ := hwf
  have hsplitB : (flattenRow ⟨vals, rels⟩).map (fun v => transformRowValue (pgToPy v)) =
      vals.map (fun v => transformRowValue (pgToPy v)) ++
        ((flattenRs rels).map (fun v => transformRowValue (pgToPy v)) ++ []) := by
    simp [flattenRow, List.map_append]
  have hsplitD : (flattenRow ⟨vals, rels⟩).map directConvert =
      vals.map directConvert ++ ((flattenRs rels).map directConvert ++ []) := by
    simp [flattenRow, List.map_append]
  have hbB := buildRels_batch md.rels rels [] hrels
  have hbD := buildRels_direct md.rels rels [] hrels
  have hta := transformAttrs_mid md.fields vals hvals
  have htc := transformCache_mid md.rels rels hrels hfree
  rw [hsplitB, hsplitD]
  simp only [instanceFromVals, buildObjFromRow,
    convertFields_batch md.fields vals _ hvals,
    convertFields_direct md.fields vals _ hvals, hbB, hbD,
    transform_object_to_handle_json_agg, hta, htc]

/-- List-level equivalence: rehydrating the batch response for a
model-iterable queryset equals building every row through the direct
path. -/
theorem get_instances_eq_direct (md : ModelDesc) :
    ∀ (rows : List (List (String × PgValue))) (trees : List SrcRow),
    rows.map (fun r => r.map Prod.snd) = trees.map flattenRow →
    trees.all (fun t => wfRow md t) = true →
    relsSubsCoercionFree md.rels = true →
    get_instances_from_results_for_model_iterable md
      (rows.map (fun row => row.map (fun cv => (cv.1, pgToPy cv.2)))) =
      mapMExcept (fun row => buildObjFromRow md ((row.map Prod.snd).map directConvert))
        rows := by
  intro rows
  induction rows with
  | nil =>
    intro trees hshape _ _
    rfl
  | cons row rows ih =>
    intro trees hshape hwf hfree
    cases trees with
    | nil => simp at hshape
    | cons t ts =>
      simp only [List.map_cons, List.cons.injEq] at hshape
      obtain ⟨hrow, hrows⟩ := hshape
      simp only [List.all_cons, Bool.and_eq_true] at hwf
      obtain ⟨hwt, hwts⟩ := hwf
      have hbatchvals : (transformRowDict (row.map (fun cv => (cv.1, pgToPy cv.2)))).map
          Prod.snd = (flattenRow t).map (fun v => transformRowValue (pgToPy v)) := by
        simp only [transformRowDict, List.map_map]
        rw [← hrow]
        simp [Function.comp, List.map_map]
      have hdirvals : (row.map Prod.snd).map directConvert =
          (flattenRow t).map directConvert := by
        rw [hrow]
      have hinst := instance_batch_eq_direct md t hwt hfree
      simp only [get_instances_from_results_for_model_iterable, List.map_cons,
        mapMExcept, hbatchvals, hinst, hdirvals]
      have ihs := ih ts hrows hwts hfree
      simp only [get_instances_from_results_for_model_iterable] at ihs
      rw [ihs]

/-! ## Execution helpers -/

def SqlParam.isOther : SqlParam → Bool
  | .other _ => true
  | _ => false

/-- Every bound parameter of the compiled query has a recognized type. -/
def paramsOk (qs : Queryset) : Bool :=
  match qs.compiledSql with
  | Option.none => true
  | some (_, ps) => ps.all (fun p => ! p.isOther)

theorem quoteParam_ok_of_not_other (p : SqlParam) (h : p.isOther = false) :
    ∃ s, quoteParam p = .ok s := by
  cases p <;> first
  | exact ⟨_, rfl⟩
  | simp [SqlParam.isOther] at h

theorem mapMExcept_ok_of_all {α β : Type} {f : α → Except PyErr β} :
    ∀ l : List α, (∀ a ∈ l, ∃ b, f a = .ok b) → ∃ l', mapMExcept f l = .ok l' := by
  intro l
  induction l with
  | nil => intro _; exact ⟨[], rfl⟩
  | cons a as ih =>
    intro h
    obtain ⟨b, hb⟩ := h a (by simp)
    obtain ⟨bs, hbs⟩ := ih (fun x hx => h x (by simp [hx]))
    exact ⟨b :: bs, by simp [mapMExcept, hb, hbs]⟩

/-- A compiled intent always yields a fragment string when its parameters
are well-typed, and that string is empty exactly for a statically empty
query. -/
theorem get_django_ok (w : QuerysetWrapperType)
    (h : paramsOk w.underlying = true) :
    ∃ s, get_django_sql_for_queryset w = .ok s ∧
      (s = "" ↔ wrapperCompiledSql w = Option.none) := by
  cases hc : w.underlying.compiledSql with
  | none =>
    refine ⟨"", ?_, by simp [wrapperCompiledSql, hc]⟩
    simp [get_django_sql_for_queryset, wrapperCompiledSql, hc]
  | some tp =>
    obtain ⟨t, ps⟩ := tp
    have hps : ∀ p ∈ ps, ∃ s, quoteParam p = .ok s := by
      intro p hp
      simp only [paramsOk, hc, List.all_eq_true] at h
      have := h p hp
      exact quoteParam_ok_of_not_other p (by simpa using this)
    obtain ⟨quoted, hq⟩ := mapMExcept_ok_of_all ps hps
    refine ⟨"(SELECT COALESCE(json_agg(item), '[]') FROM ("
        ++ String.mk (interpolateChars t.data quoted) ++ ") item)", ?_, ?_⟩
    · simp [get_django_sql_for_queryset, wrapperCompiledSql, hc, hq]
    · constructor
      · intro heq
        have hlen := congrArg String.length heq
        simp [String.length_append] at hlen
        exact absurd hlen.1.1 (by decide)
      · intro heq
        rw [wrapperCompiledSql, hc] at heq
        exact absurd heq (by simp)

theorem execute_singleton_empty (w : QuerysetWrapperType)
    (hs : get_django_sql_for_queryset w = .ok "") :
    execute [w] = (.ok [get_empty_queryset_value w], []) := by
  simp [execute, mapMExcept, hs, demuxResults, List.filter]

theorem execute_singleton_nonempty (w : QuerysetWrapperType) (s : String)
    (hs : get_django_sql_for_queryset w = .ok s) (hne : s ≠ "") :
    execute [w] =
      ((match convert_raw_results_to_final_queryset_results w (fragmentPyRows w) with
        | .error e => .error e
        | .ok r => .ok [r]), [ExecRecord.mk "default"]) := by
  simp only [execute, mapMExcept, hs, List.zip_cons_cons, List.zip_nil_left,
    List.filter, hne, decide_not]
  have hd : (decide ¬s = "") = true := by simp [hne]
  simp only [hd, Bool.not_false, List.map_cons, List.map_nil, List.isEmpty_cons,
    demuxResults, if_neg hne, List.get?]
  cases convert_raw_results_to_final_queryset_results w (fragmentPyRows w) <;>
    simp [demuxResults]

theorem get_django_empty_iff (w : QuerysetWrapperType) (s : String)
    (h : get_django_sql_for_queryset w = .ok s) :
    s = "" ↔ wrapperCompiledSql w = Option.none := by
  cases hc : wrapperCompiledSql w with
  | none =>
    simp only [get_django_sql_for_queryset, hc] at h
    injection h with h
    simp [← h]
  | some tp =>
    obtain ⟨t, ps⟩ := tp
    simp only [get_django_sql_for_queryset, hc] at h
    cases hq : mapMExcept quoteParam ps with
    | error e => rw [hq] at h; simp at h
    | ok quoted =>
      rw [hq] at h
      injection h with h
      constructor
      · intro heq
        rw [← h] at heq
        have hlen := congrArg String.length heq
        simp [String.length_append] at hlen
        exact absurd hlen.1.1 (by decide)
      · intro heq
        exact absurd heq (by simp)

theorem mem_zip_of_mem_left {α β : Type} {l1 : List α} {l2 : List β} {a : α} :
    l1.length = l2.length → a ∈ l1 → ∃ b, (a, b) ∈ l1.zip l2 := by
  induction l1 generalizing l2 with
  | nil => intro _ ha; simp at ha
  | cons x xs ih =>
    intro hlen ha
    cases l2 with
    | nil => simp at hlen
    | cons y ys =>
      rcases List.mem_cons.mp ha with rfl | ha
      · exact ⟨y, by simp⟩
      · obtain ⟨b, hb⟩ := ih (by simpa using hlen) ha
        exact ⟨b, by simp [hb]⟩

/-- C1: for every ordered list of query intents passed to `execute`, the
returned list has exactly one result per intent, in the same order as the
input list, regardless of which intents are statically empty: the output
has the input's length and position `i` holds exactly intent `i`'s own
standalone result. -/
theorem C1_one_result_per_intent_in_input_order
    (qss : List QuerysetWrapperType) (res : List FetchResult)
    (h : (execute qss).1 = .ok res) :
    res.length = qss.length ∧
      ∀ p ∈ qss.zip res, rehydrateStandalone p.1 = .ok p.2 :=
  mapMExcept_ok (execute_ok_mapM qss res h)

/-- A structural query with no slicing, grouping, distinct, combinator,
ordering, limits or annotations. -/
def plainQuery : SqlQuery :=
  ⟨[], false, false, false, false, false, false, false, false, true, false,
    false, 0, false⟩

def qsC1empty : Queryset :=
  ⟨"default", plainQuery, Option.none, .modelIterable,
    ⟨[⟨"id", .otherField⟩], .nil⟩, []⟩

def qsC1full : Queryset :=
  ⟨"default", plainQuery, some ("SELECT 1", []), .modelIterable,
    ⟨[⟨"id", .otherField⟩], .nil⟩, [[("id", .int 7)]]⟩

theorem C1_witness :
    ([FetchResult.many [],
      FetchResult.many [.obj (.mk [(⟨"id", .otherField⟩, .int 7)] .nil)]].length =
        [QuerysetWrapperType.queryset qsC1empty, .queryset qsC1full].length) ∧
      ∀ p ∈ [QuerysetWrapperType.queryset qsC1empty, .queryset qsC1full].zip
          [FetchResult.many [],
           FetchResult.many [.obj (.mk [(⟨"id", .otherField⟩, .int 7)] .nil)]],
        rehydrateStandalone p.1 = .ok p.2 :=
  C1_one_result_per_intent_in_input_order
    [.queryset qsC1empty, .queryset qsC1full]
    [.many [], .many [.obj (.mk [(⟨"id", .otherField⟩, .int 7)] .nil)]] (by rfl)

/-- C3: exactly one statement execution occurs when at least one compiled
fragment is non-empty and zero when all fragments are empty; every
statically empty intent's result is its variant-specific default — the
empty list for a row fetch, `0` for a count, the absent value for a
first-or-none, and the aggregate's zero/identity values for an aggregate —
computed without consulting the batch response. -/
theorem isEmpty_map_eq {α β : Type} (f : α → β) (l : List α) :
    (l.map f).isEmpty = l.isEmpty := by cases l <;> rfl

theorem C3_one_execution_and_variant_defaults
    (qss : List QuerysetWrapperType) (res : List FetchResult)
    (trace : List ExecRecord) (h : execute qss = (.ok res, trace)) :
    (trace.length = if ∃ w ∈ qss, wrapperCompiledSql w ≠ Option.none then 1 else 0) ∧
    ∀ p ∈ qss.zip res, wrapperCompiledSql p.1 = Option.none →
      p.2 = (match p.1 with
        | .queryset _ => FetchResult.many []
        | .countW _ => FetchResult.countVal (.int 0)
        | .getOrNoneW _ => FetchResult.one Option.none
        | .aggregateW aw =>
          FetchResult.aggVal (aw.aggregateSpec.map (fun a => (a.name, a.identity)))) := by
  have h1 : (execute qss).1 = .ok res := by rw [h]
  have hall := mapMExcept_ok (execute_ok_mapM qss res h1)
  constructor
  · cases hsqls : mapMExcept get_django_sql_for_queryset qss with
    | error e =>
      unfold execute at h
      rw [hsqls] at h
      simp at h
    | ok sqls =>
      obtain ⟨hlen, hok⟩ := mapMExcept_ok hsqls
      unfold execute at h
      rw [hsqls] at h
      simp only [Prod.mk.injEq] at h
      obtain ⟨-, h2⟩ := h
      rw [← h2, isEmpty_map_eq]
      by_cases hex : ∃ w ∈ qss, wrapperCompiledSql w ≠ Option.none
      · rw [if_pos hex]
        obtain ⟨w, hwmem, hwne⟩ := hex
        obtain ⟨sw, hsw⟩ := mem_zip_of_mem_left hlen.symm hwmem
        have hgw := hok (w, sw) hsw
        have hswne : sw ≠ "" := fun hcon =>
          hwne ((get_django_empty_iff w sw hgw).mp hcon)
        have hmemf : (w, sw) ∈ (qss.zip sqls).filter (fun p => p.2 ≠ "") :=
          List.mem_filter.mpr ⟨hsw, by simpa using hswne⟩
        have hne : ¬ (((qss.zip sqls).filter (fun p => p.2 ≠ "")).isEmpty = true) := by
          intro hcon
          rw [List.isEmpty_iff] at hcon
          rw [hcon] at hmemf
          simp at hmemf
        rw [if_neg hne]
        rfl
      · rw [if_neg hex]
        have hfil : (qss.zip sqls).filter (fun p => p.2 ≠ "") = [] := by
          rw [List.filter_eq_nil_iff]
          intro p hp
          obtain ⟨a, b⟩ := p
          have hmem : a ∈ qss := (List.mem_zip hp).1
          have hnone : wrapperCompiledSql a = Option.none := by
            by_contra hcon
            exact hex ⟨a, hmem, hcon⟩
          simp [(get_django_empty_iff a b (hok (a, b) hp)).mpr hnone]
        rw [hfil]
        rfl
  · intro p hp hnone
    have hre := hall.2 p hp
    have hg : get_django_sql_for_queryset p.1 = .ok "" := by
      simp only [get_django_sql_for_queryset, wrapperCompiledSql] at hnone ⊢
      rw [hnone]
    rw [rehydrateStandalone, hg] at hre
    simp only [if_pos rfl] at hre
    injection hre with hre
    rw [← hre]
    cases p.1 <;> rfl

def qsC3count : Queryset :=
  ⟨"default", plainQuery, Option.none, .modelIterable,
    ⟨[⟨"id", .otherField⟩], .nil⟩, []⟩

def qsC3rows : Queryset :=
  ⟨"default", plainQuery, some ("SELECT 2", []), .modelIterable,
    ⟨[⟨"id", .otherField⟩], .nil⟩, [[("id", .int 3)]]⟩

theorem C3_witness :
    (([ExecRecord.mk "default"] : List ExecRecord).length =
      if ∃ w ∈ [QuerysetWrapperType.countW ⟨qsC3count⟩, .queryset qsC3rows],
        wrapperCompiledSql w ≠ Option.none then 1 else 0) ∧
    ∀ p ∈ [QuerysetWrapperType.countW ⟨qsC3count⟩, .queryset qsC3rows].zip
        [FetchResult.countVal (.int 0),
         FetchResult.many [.obj (.mk [(⟨"id", .otherField⟩, .int 3)] .nil)]],
      wrapperCompiledSql p.1 = Option.none →
      p.2 = (match p.1 with
        | .queryset _ => FetchResult.many []
        | .countW _ => FetchResult.countVal (.int 0)
        | .getOrNoneW _ => FetchResult.one Option.none
        | .aggregateW aw =>
          FetchResult.aggVal (aw.aggregateSpec.map (fun a => (a.name, a.identity)))) :=
  C3_one_execution_and_variant_defaults
    [.countW ⟨qsC3count⟩, .queryset qsC3rows]
    [.countVal (.int 0), .many [.obj (.mk [(⟨"id", .otherField⟩, .int 3)] .nil)]]
    [ExecRecord.mk "default"] (by rfl)

/-- C10: every statement execution `execute` performs runs on the
connection registered under the alias `"default"`, regardless of the
database alias each queryset carries — while the compiler obtained for an
intent uses the queryset's own alias. -/
theorem C10_executes_on_default_connection (qss : List QuerysetWrapperType) :
    (∀ r ∈ (execute qss).2, r.connectionAlias = "default") ∧
    (∀ w : QuerysetWrapperType,
      (get_compiler_from_queryset w).usingDb = w.underlying.db) := by
  constructor
  · intro r hr
    unfold execute at hr
    cases hsqls : mapMExcept get_django_sql_for_queryset qss with
    | error e => rw [hsqls] at hr; simp at hr
    | ok sqls =>
      rw [hsqls] at hr
      simp only at hr
      by_cases he : ((((qss.zip sqls).filter (fun p => p.2 ≠ "")).map Prod.fst).isEmpty
          = true)
      · rw [if_pos he] at hr
        simp at hr
      · rw [if_neg he] at hr
        simp only [List.mem_singleton] at hr
        rw [hr]
  · intro w
    cases w <;> rfl

def qsC10 : Queryset :=
  ⟨"analytics_replica", plainQuery, some ("SELECT 5", []), .modelIterable,
    ⟨[⟨"id", .otherField⟩], .nil⟩, [[("id", .int 5)]]⟩

theorem C10_witness :
    (ExecRecord.mk "default").connectionAlias = "default" ∧
    (get_compiler_from_queryset (.queryset qsC10)).usingDb = "analytics_replica" :=
  ⟨(C10_executes_on_default_connection [.queryset qsC10]).1 (ExecRecord.mk "default")
      (by decide),
   (C10_executes_on_default_connection [.queryset qsC10]).2 (.queryset qsC10)⟩

theorem escSqlChars_id (l : List Char) (h : ∀ c ∈ l, c ≠ '\'') :
    escSqlChars l = l := by
  induction l with
  | nil => rfl
  | cons c cs ih =>
    have hc : c ≠ '\'' := h c (by simp)
    simp [escSqlChars, hc, ih (fun x hx => h x (by simp [hx]))]

theorem mapMExcept_error_of_mem {α β : Type} (f : α → Except PyErr β) :
    ∀ {l : List α} {a : α}, a ∈ l → (∃ e, f a = .error e) →
      ∃ e, mapMExcept f l = .error e := by
  intro l
  induction l with
  | nil => intro a ha; simp at ha
  | cons x xs ih =>
    intro a ha he
    rcases List.mem_cons.mp ha with rfl | ha
    · obtain ⟨e, hfe⟩ := he
      exact ⟨e, by simp [mapMExcept, hfe]⟩
    · cases hfx : f x with
      | error e => exact ⟨e, by simp [mapMExcept, hfx]⟩
      | ok b =>
        obtain ⟨e, hrec⟩ := ih ha he
        exact ⟨e, by simp [mapMExcept, hfx, hrec]⟩

theorem intChars_eq_decChars (n : Int) : intChars n = decChars ⟨n, 0⟩ := by
  simp [intChars, decChars, decCharsNat]

/-- C5: the parameter encoder returns a value-preserving SQL literal for
every recognized parameter type — strings via the driver quoting primitive
so that embedded quotes round-trip without breaking out of the literal,
UUIDs and timestamps single-quoted, ints and floats as plain decimal
text — and it raises the unsupported-parameter-type error exactly for
values outside the recognized set, aborting the batch before any statement
execution. -/
theorem C5_parameter_encoder_contract :
    (∀ s : String, quoteParam (.str s) = .ok (get_sanitized_sql_param s) ∧
      ∀ rest : List Char, nonQuoteStart rest →
        parseSqlStringLit ((get_sanitized_sql_param s).data ++ rest) =
          some (s.data, rest)) ∧
    (∀ u : String, quoteParam (.uuid u) = .ok ("'" ++ u ++ "'") ∧
      ((∀ c ∈ u.data, c ≠ '\'') → ∀ rest : List Char, nonQuoteStart rest →
        parseSqlStringLit (("'" ++ u ++ "'").data ++ rest) = some (u.data, rest))) ∧
    (∀ ts : String, quoteParam (.timestamp ts) = .ok ("'" ++ ts ++ "'") ∧
      ((∀ c ∈ ts.data, c ≠ '\'') → ∀ rest : List Char, nonQuoteStart rest →
        parseSqlStringLit (("'" ++ ts ++ "'").data ++ rest) = some (ts.data, rest))) ∧
    (∀ n : Int, quoteParam (.int n) = .ok (String.mk (intChars n)) ∧
      decParseChars (intChars n) = some ⟨n, 0⟩) ∧
    (∀ d : Dec, quoteParam (.float d) = .ok (String.mk (decChars d)) ∧
      decParseChars (decChars d) = some d) ∧
    (∀ p : SqlParam, (∃ e, quoteParam p = .error e) ↔ ∃ t, p = .other t) ∧
    (∀ (qss : List QuerysetWrapperType) (w : QuerysetWrapperType)
        (t sqlText : String) (ps : List SqlParam),
      w ∈ qss → wrapperCompiledSql w = some (sqlText, ps) →
      SqlParam.other t ∈ ps →
      (∃ e, (execute qss).1 = .error e) ∧ (execute qss).2 = []) := by
  refine ⟨?_, ?_, ?_, ?_, ?_, ?_, ?_⟩
  · intro s
    exact ⟨rfl, fun rest hrest => parseSqlStringLit_sanitized s rest hrest⟩
  · intro u
    refine ⟨rfl, fun hq rest hrest => ?_⟩
    have hdata : ("'" ++ u ++ "'").data ++ rest =
        '\'' :: (escSqlChars u.data ++ '\'' :: rest) := by
      simp [escSqlChars_id u.data hq]
    rw [hdata, parseSqlStringLit, if_pos rfl, sqlUnquoteBody_esc u.data rest hrest]
  · intro ts
    refine ⟨rfl, fun hq rest hrest => ?_⟩
    have hdata : ("'" ++ ts ++ "'").data ++ rest =
        '\'' :: (escSqlChars ts.data ++ '\'' :: rest) := by
      simp [escSqlChars_id ts.data hq]
    rw [hdata, parseSqlStringLit, if_pos rfl, sqlUnquoteBody_esc ts.data rest hrest]
  · intro n
    exact ⟨rfl, by rw [intChars_eq_decChars]; exact decParseChars_decChars ⟨n, 0⟩⟩
  · intro d
    exact ⟨rfl, decParseChars_decChars d⟩
  · intro p
    constructor
    · intro ⟨e, he⟩
      cases p <;> simp [quoteParam] at he ⊢
    · intro ⟨t, ht⟩
      subst ht
      exact ⟨.valueError ("Unsupported param type: " ++ t), rfl⟩
  · intro qss w t sqlText ps hmem hc hpmem
    have hbad : ∃ e, get_django_sql_for_queryset w = .error e := by
      obtain ⟨e, he⟩ := mapMExcept_error_of_mem quoteParam hpmem
        ⟨.valueError ("Unsupported param type: " ++ t), rfl⟩
      exact ⟨e, by simp [get_django_sql_for_queryset, hc, he]⟩
    obtain ⟨e, he⟩ := mapMExcept_error_of_mem get_django_sql_for_queryset hmem hbad
    constructor
    · exact ⟨e, by simp [execute, he]⟩
    · simp [execute, he]

theorem C5_witness :
    parseSqlStringLit ((get_sanitized_sql_param "Ap's").data ++ [' ']) =
      some ("Ap's".data, [' ']) ∧
    decParseChars (intChars 42) = some ⟨42, 0⟩ ∧
    (∃ e, quoteParam (.other "dict") = .error e) ∧
    (∃ e, (execute [.queryset ⟨"default", plainQuery,
        some ("SELECT %s", [.other "dict"]), .modelIterable,
        ⟨[⟨"id", .otherField⟩], .nil⟩, []⟩]).1 = .error e) :=
  ⟨(C5_parameter_encoder_contract.1 "Ap's").2 [' '] (by decide),
   (C5_parameter_encoder_contract.2.2.2.1 42).2,
   (C5_parameter_encoder_contract.2.2.2.2.2.1 (.other "dict")).mpr ⟨"dict", rfl⟩,
   (C5_parameter_encoder_contract.2.2.2.2.2.2
      [.queryset ⟨"default", plainQuery, some ("SELECT %s", [.other "dict"]),
        .modelIterable, ⟨[⟨"id", .otherField⟩], .nil⟩, []⟩]
      (.queryset ⟨"default", plainQuery, some ("SELECT %s", [.other "dict"]),
        .modelIterable, ⟨[⟨"id", .otherField⟩], .nil⟩, []⟩)
      "dict" "SELECT %s" [.other "dict"] (by simp) rfl (by simp)).1⟩

/-- C8: a JSON-typed column holding a mapping reconstructs as the same
mapping and one holding a list reconstructs as the same list, because the
decoded structure is re-serialized to canonical text before the field
converter decodes it again: the fetched instance carries exactly the
original JSON value. -/
theorem C8_json_column_mapping_list_distinguished (name : String) (j : PyValue)
    (hj : isJsonableV j = true) (hdl : j.isDictOrList = true) :
    get_instances_from_results_for_model_iterable
      ⟨[⟨name, .jsonField⟩], .nil⟩ [[(name, pgToPy (.jsonb j))]] =
      .ok [.mk [(⟨name, .jsonField⟩, j)] .nil] := by
  have hload := jsonLoads_jsonDumps j hj
  simp only [get_instances_from_results_for_model_iterable, List.map_cons,
    List.map_nil, transformRowDict, transformRowValue, pgToPy, hdl, if_true,
    mapMExcept, instanceFromVals, buildObjFromRow, convertFields,
    applyDbConverter, if_pos rfl, hload, buildRels,
    transform_object_to_handle_json_agg, transformAttrs, transformFieldValue,
    transformCacheEntries]

theorem C8_witness :
    get_instances_from_results_for_model_iterable
      ⟨[⟨"payload", .jsonField⟩], .nil⟩
      [[("payload", pgToPy (.jsonb (.dict (.cons "a" (.int 1) .nil))))]] =
      .ok [.mk [(⟨"payload", .jsonField⟩, .dict (.cons "a" (.int 1) .nil))] .nil] :=
  C8_json_column_mapping_list_distinguished "payload"
    (.dict (.cons "a" (.int 1) .nil)) (by decide) (by decide)

/-- C4: a count intent returns exactly the number of rows the underlying
query materializes, including the statically empty and zero-row cases; the
count rewrite moves grouping, distinctness, slicing and pre-existing
summary annotations into an enclosing aggregate subquery scope, and clears
ordering (and limits) on the outer count query. -/
theorem C4_count_value_and_rewrite (qs : Queryset)
    (hparams : paramsOk qs = true)
    (hsem : qs.compiledSql = Option.none → qs.rows = []) :
    (execute [.countW ⟨qs⟩]).1 = .ok [.countVal (.int qs.rows.length)] ∧
    ∀ (q : SqlQuery) (usingDb : String),
      ((get_fetch_count_compiler_from_queryset q usingDb).outer.hasOrdering = false ∧
       (get_fetch_count_compiler_from_queryset q usingDb).outer.hasLimits = false) ∧
      ((q.groupByIsTuple || q.isSliced || !q.annots.isEmpty || q.distinct ||
          q.combinator) = true →
        ∃ inner,
          (get_fetch_count_compiler_from_queryset q usingDb).inner = some inner ∧
          inner.subquery = true ∧
          inner.annots = (q.annots ++ [countAnnot]).filter (fun a => !a.isSummary) ∧
          (get_fetch_count_compiler_from_queryset q usingDb).outer.annots =
            (q.annots ++ [countAnnot]).filter (fun a => a.isSummary)) := by
  constructor
  · obtain ⟨s, hs, hiff⟩ := get_django_ok (.countW ⟨qs⟩) hparams
    by_cases hs0 : s = ""
    · have hnone : qs.compiledSql = Option.none := by
        have := hiff.mp hs0
        simpa [wrapperCompiledSql, QuerysetWrapperType.underlying] using this
      have hrows := hsem hnone
      rw [hs0] at hs
      have hexec := execute_singleton_empty (.countW ⟨qs⟩) hs
      rw [hexec]
      simp [get_empty_queryset_value, hrows]
    · have hexec := execute_singleton_nonempty (.countW ⟨qs⟩) s hs hs0
      rw [hexec]
      simp [convert_raw_results_to_final_queryset_results, fragmentPyRows,
        List.find?]
  · intro q usingDb
    refine ⟨⟨rfl, rfl⟩, fun hflag => ?_⟩
    simp only [get_fetch_count_compiler_from_queryset]
    split
    · refine ⟨_, rfl, ?_, ?_, ?_⟩
      · simp [apply_ite SqlQuery.subquery]
      · simp [apply_ite SqlQuery.annots, apply_ite SqlQuery.defaultCols]
      · simp [apply_ite SqlQuery.annots, apply_ite SqlQuery.defaultCols]
    · next hcond =>
      exfalso
      apply hcond
      simpa using hflag

def qsC4 : Queryset :=
  ⟨"default", plainQuery, some ("SELECT 4", []), .modelIterable,
    ⟨[⟨"id", .otherField⟩], .nil⟩, [[("id", .int 1)], [("id", .int 2)]]⟩

theorem C4_witness :
    (execute [.countW ⟨qsC4⟩]).1 = .ok [.countVal (.int 2)] ∧
    ∀ (q : SqlQuery) (usingDb : String),
      ((get_fetch_count_compiler_from_queryset q usingDb).outer.hasOrdering = false ∧
       (get_fetch_count_compiler_from_queryset q usingDb).outer.hasLimits = false) ∧
      ((q.groupByIsTuple || q.isSliced || !q.annots.isEmpty || q.distinct ||
          q.combinator) = true →
        ∃ inner,
          (get_fetch_count_compiler_from_queryset q usingDb).inner = some inner ∧
          inner.subquery = true ∧
          inner.annots = (q.annots ++ [countAnnot]).filter (fun a => !a.isSummary) ∧
          (get_fetch_count_compiler_from_queryset q usingDb).outer.annots =
            (q.annots ++ [countAnnot]).filter (fun a => a.isSummary)) :=
  C4_count_value_and_rewrite qsC4 (by rfl) (by intro h; simp [qsC4] at h)

/-- C6: the intent union includes the aggregate variant
`QuerysetWrapperType.aggregateW` (query plus aggregate spec), and executing
such an intent returns the single mapping of the aggregate's field values,
each coerced by the declared aggregate's expected type. -/
theorem C6_aggregate_single_coerced_mapping (w : QuerysetAggregateWrapper)
    (row : List (String × PgValue)) (coerced : List (String × PyValue))
    (hrows : w.queryset.rows = [row])
    (hparams : paramsOk w.queryset = true)
    (hcompiled : w.queryset.compiledSql ≠ Option.none)
    (hcoerce : mapMExcept (fun kv =>
        match transformFieldValue (aggKindFor w.aggregateSpec kv.1) kv.2 with
        | .error e => .error e
        | .ok v => .ok (kv.1, v)) (row.map (fun cv => (cv.1, pgToPy cv.2))) =
      .ok coerced) :
    (execute [.aggregateW w]).1 = .ok [.aggVal coerced] := by
  obtain ⟨s, hs, hiff⟩ := get_django_ok (.aggregateW w) hparams
  have hs0 : s ≠ "" := fun hcon => hcompiled (by
    have := hiff.mp hcon
    simpa [wrapperCompiledSql, QuerysetWrapperType.underlying] using this)
  have hexec := execute_singleton_nonempty (.aggregateW w) s hs hs0
  rw [hexec]
  simp [convert_raw_results_to_final_queryset_results, fragmentPyRows, hrows,
    hcoerce]

def wC6 : QuerysetAggregateWrapper :=
  ⟨⟨"default", plainQuery, some ("SELECT 6", []), .modelIterable,
      ⟨[], .nil⟩, [[("total_price", .numeric ⟨5022, 2⟩), ("cnt", .int 4)]]⟩,
   [⟨"total_price", .decimalField, .pynone⟩, ⟨"cnt", .otherField, .int 0⟩]⟩

theorem C6_witness :
    (execute [.aggregateW wC6]).1 =
      .ok [.aggVal [("total_price", .decimal ⟨5022, 2⟩), ("cnt", .int 4)]] :=
  C6_aggregate_single_coerced_mapping wC6
    [("total_price", .numeric ⟨5022, 2⟩), ("cnt", .int 4)]
    [("total_price", .decimal ⟨5022, 2⟩), ("cnt", .int 4)]
    rfl rfl (by simp [wC6]) (by rfl)

theorem mapMExcept_cons_ok {α β : Type} {f : α → Except PyErr β} {a : α}
    {as : List α} {l : List β} (h : mapMExcept f (a :: as) = .ok l) :
    ∃ b bs, f a = .ok b ∧ mapMExcept f as = .ok bs ∧ l = b :: bs := by
  simp only [mapMExcept] at h
  cases hfa : f a with
  | error e => rw [hfa] at h; simp at h
  | ok b =>
    rw [hfa] at h
    cases hrec : mapMExcept f as with
    | error e => rw [hrec] at h; simp at h
    | ok bs =>
      rw [hrec] at h
      simp only at h
      injection h with h
      exact ⟨b, bs, rfl, rfl, h.symm⟩

/-- Rehydration of a one-row prefix: the iterable dispatch on the first
row of the raw results yields the first element of the full results. -/
theorem iterableResults_take_one (qs qs2 : Queryset)
    (hclass : qs2.iterableClass = qs.iterableClass)
    (hmd : qs2.modelDesc = qs.modelDesc)
    (raw : List (List (String × PyValue))) (elems : List ResultElem)
    (h : iterableResults qs raw = .ok elems) :
    iterableResults qs2 (raw.take 1) = .ok (elems.take 1) := by
  cases raw with
  | nil =>
    have h2 : iterableResults qs2 ([] : List (List (String × PyValue))) =
        iterableResults qs [] := by
      simp only [iterableResults, hclass, hmd]
    have helems : elems = [] := by
      cases hcl : qs.iterableClass <;>
        simp [iterableResults, hcl, get_instances_from_results_for_model_iterable,
          mapMExcept] at h <;>
        first
        | exact h.symm
        | exact h
    simp only [List.take_nil]
    rw [h2, h, helems]
    rfl
  | cons r rs =>
    cases hcl : qs.iterableClass
    case modelIterable =>
      simp only [iterableResults, hcl, hclass, hmd] at h ⊢
      cases hg : get_instances_from_results_for_model_iterable qs.modelDesc (r :: rs) with
      | error e => rw [hg] at h; simp at h
      | ok objs =>
        rw [hg] at h
        simp only at h
        injection h with h
        simp only [get_instances_from_results_for_model_iterable, List.map_cons] at hg
        obtain ⟨b, bs, hb, hbs, hl⟩ := mapMExcept_cons_ok hg
        simp only [List.take_succ_cons, List.take_zero,
          get_instances_from_results_for_model_iterable, List.map_cons,
          List.map_nil, mapMExcept, hb]
        rw [← h, hl]
        simp
    case valuesIterable =>
      simp only [iterableResults, hcl, hclass] at h ⊢
      injection h with h
      rw [← h]
      simp
    case flatValuesListIterable =>
      simp only [iterableResults, hcl, hclass] at h ⊢
      obtain ⟨b, bs, hb, hbs, hl⟩ := mapMExcept_cons_ok h
      simp only [List.take_succ_cons, List.take_zero, mapMExcept, hb]
      rw [hl]
      simp [mapMExcept]
    case valuesListIterable =>
      simp only [iterableResults, hcl, hclass] at h ⊢
      injection h with h
      rw [← h]
      simp
    case otherIterable =>
      simp [iterableResults, hcl, hclass] at h

/-- C7: a first-or-none intent narrows its query to a one-row limit at
construction time; executing it returns the absent value when zero rows
match, the first row of the full result set when one or more rows match,
and never raises when several rows match. -/
theorem C7_get_or_none_first_of_full (qs : Queryset) (elems : List ResultElem)
    (h : (execute [.queryset qs]).1 = .ok [.many elems]) :
    (execute [.getOrNoneW (QuerysetGetOrNoneWrapper.make qs)]).1 =
      .ok [.one elems.head?] ∧
    (QuerysetGetOrNoneWrapper.make qs).queryset.rows = qs.rows.take 1 ∧
    (QuerysetGetOrNoneWrapper.make qs).queryset.query.isSliced = true ∧
    (∀ e, elems.head? = some e → e ∈ elems) := by
  have hgeq : get_django_sql_for_queryset
      (.getOrNoneW (QuerysetGetOrNoneWrapper.make qs)) =
      get_django_sql_for_queryset (.queryset qs) := rfl
  refine ⟨?_, rfl, rfl, fun e he => List.mem_of_mem_head? he⟩
  cases hg : get_django_sql_for_queryset (.queryset qs) with
  | error e =>
    simp [execute, mapMExcept, hg] at h
  | ok s =>
    by_cases hs0 : s = ""
    · rw [hs0] at hg
      have helems : elems = [] := by
        have h2 : (Except.ok [FetchResult.many []] : Except PyErr (List FetchResult)) =
            Except.ok [FetchResult.many elems] := by
          rw [execute_singleton_empty _ hg] at h
          exact h
        injection h2 with h2
        injection h2 with h21 h22
        injection h21 with h21
        exact h21.symm
      rw [execute_singleton_empty _ (hgeq.trans hg)]
      simp [get_empty_queryset_value, helems]
    · have h2 : (match convert_raw_results_to_final_queryset_results (.queryset qs)
          (fragmentPyRows (.queryset qs)) with
        | .error e => Except.error e
        | .ok r => Except.ok [r]) = Except.ok [FetchResult.many elems] := by
        rw [execute_singleton_nonempty _ s hg hs0] at h
        exact h
      simp only [convert_raw_results_to_final_queryset_results] at h2
      cases hi : iterableResults qs (fragmentPyRows (.queryset qs)) with
      | error e => rw [hi] at h2; simp at h2
      | ok elems2 =>
        rw [hi] at h2
        have helems : elems2 = elems := by
          injection h2 with h2
          injection h2 with h21 h22
          injection h21 with h21
        have hraw : fragmentPyRows (.getOrNoneW (QuerysetGetOrNoneWrapper.make qs)) =
            (fragmentPyRows (.queryset qs)).take 1 := by
          simp [fragmentPyRows, QuerysetGetOrNoneWrapper.make, List.map_take]
        have htake := iterableResults_take_one qs
          (QuerysetGetOrNoneWrapper.make qs).queryset rfl rfl
          (fragmentPyRows (.queryset qs)) elems2 hi
        have hc2 : convert_raw_results_to_final_queryset_results
            (.getOrNoneW (QuerysetGetOrNoneWrapper.make qs))
            (fragmentPyRows (.getOrNoneW (QuerysetGetOrNoneWrapper.make qs))) =
            .ok (.one elems.head?) := by
          simp only [convert_raw_results_to_final_queryset_results, hraw, htake]
          have hhead : (elems2.take 1).head? = elems.head? := by
            rw [helems]
            cases elems <;> rfl
          rw [hhead]
        rw [execute_singleton_nonempty _ s (hgeq.trans hg) hs0, hc2]

def qsC7 : Queryset :=
  ⟨"default", plainQuery, some ("SELECT 7", []), .valuesIterable,
    ⟨[], .nil⟩, [[("id", .int 1)], [("id", .int 2)], [("id", .int 3)]]⟩

theorem C7_witness :
    (execute [.getOrNoneW (QuerysetGetOrNoneWrapper.make qsC7)]).1 =
      .ok [.one ([ResultElem.row [("id", .int 1)], ResultElem.row [("id", .int 2)],
        ResultElem.row [("id", .int 3)]] : List ResultElem).head?] ∧
    (QuerysetGetOrNoneWrapper.make qsC7).queryset.rows = qsC7.rows.take 1 ∧
    (QuerysetGetOrNoneWrapper.make qsC7).queryset.query.isSliced = true ∧
    (∀ e, ([ResultElem.row [("id", .int 1)], ResultElem.row [("id", .int 2)],
        ResultElem.row [("id", .int 3)]] : List ResultElem).head? = some e →
      e ∈ ([ResultElem.row [("id", .int 1)], ResultElem.row [("id", .int 2)],
        ResultElem.row [("id", .int 3)]] : List ResultElem)) :=
  C7_get_or_none_first_of_full qsC7
    [ResultElem.row [("id", .int 1)], ResultElem.row [("id", .int 2)],
      ResultElem.row [("id", .int 3)]] (by rfl)

/-! ## C2: the two-path equivalence and its boundary -/

/-- The direct path's instance for one well-formed source row. -/
theorem buildObjFromRow_direct_ok (md : ModelDesc) (t : SrcRow)
    (hwf : wfRow md t = true) :
    buildObjFromRow md ((flattenRow t).map directConvert) =
      .ok (.mk (attrsWith dirVal md.fields t.vals) (cacheWith dirVal md.rels t.rels)) := by
  obtain ⟨vals, rels⟩ := t
  simp only [wfRow, Bool.and_eq_true] at hwf
  obtain ⟨hvals, hrels⟩ := hwf
  have hsplitD : (flattenRow ⟨vals, rels⟩).map directConvert =
      vals.map directConvert ++ ((flattenRs rels).map directConvert ++ []) := by
    simp [flattenRow, List.map_append]
  rw [hsplitD]
  simp only [buildObjFromRow, convertFields_direct md.fields vals _ hvals,
    buildRels_direct md.rels rels [] hrels]

/-- The direct path succeeds on every list of well-formed rows. -/
theorem mapM_direct_ok (md : ModelDesc) :
    ∀ (rows : List (List (String × PgValue))) (trees : List SrcRow),
    rows.map (fun r => r.map Prod.snd) = trees.map flattenRow →
    trees.all (fun t => wfRow md t) = true →
    ∃ objs, mapMExcept
      (fun row => buildObjFromRow md ((row.map Prod.snd).map directConvert)) rows =
      .ok objs := by
  intro rows
  induction rows with
  | nil => intro trees _ _; exact ⟨[], rfl⟩
  | cons row rows ih =>
    intro trees hshape hwf
    cases trees with
    | nil => simp at hshape
    | cons t ts =>
      simp only [List.map_cons, List.cons.injEq] at hshape
      obtain ⟨hrow, hrows⟩ := hshape
      simp only [List.all_cons, Bool.and_eq_true] at hwf
      obtain ⟨hwt, hwts⟩ := hwf
      obtain ⟨objs, hobjs⟩ := ih ts hrows hwts
      refine ⟨Obj.mk (attrsWith dirVal md.fields t.vals)
          (cacheWith dirVal md.rels t.rels) :: objs, ?_⟩
      simp only [mapMExcept, hrow, buildObjFromRow_direct_ok md t hwt, hobjs]

deriving instance DecidableEq for Except

def mdC2bad : ModelDesc :=
  ⟨[⟨"id", .otherField⟩],
   .cons (.mk "store" [⟨"sid", .otherField⟩]
     (.cons (.mk "category" [⟨"price", .decimalField⟩] .nil) .nil)) .nil⟩

/-- A plain queryset whose `select_related` graph carries a decimal column
two levels deep: the batched pipeline leaves that column a float. -/
def qsC2bad : Queryset :=
  ⟨"default", plainQuery, some ("SELECT 2", []), .modelIterable, mdC2bad,
    [[("id", .int 1), ("sid", .int 7), ("price", .numeric ⟨5022, 2⟩)]]⟩

/-- Counterexample to C2 as stated: for this single plain-queryset intent the
batched result differs from the direct path `list(queryset)` — the decimal
column of the depth-two related instance comes back as a binary float. -/
theorem C2_counterexample :
    (execute [.queryset qsC2bad]).1 ≠
      (match list_queryset qsC2bad with
       | .error e => Except.error e
       | .ok objs => Except.ok [FetchResult.many (objs.map ResultElem.obj)]) := by
  decide

/-- C2 (amended): for a single plain model-iterable queryset whose rows are
well-typed for its select graph and whose relations deeper than one level
carry only coercion-free fields, `execute([qs])[0]` equals the direct
non-batched path `list(qs)`; without the depth bound the claim is false
(`C2_counterexample`). -/
theorem C2_single_rowfetch_equals_direct_path (qs : Queryset) (trees : List SrcRow)
    (hclass : qs.iterableClass = .modelIterable)
    (hshape : qs.rows.map (fun r => r.map Prod.snd) = trees.map flattenRow)
    (hwf : trees.all (fun t => wfRow qs.modelDesc t) = true)
    (hfree : relsSubsCoercionFree qs.modelDesc.rels = true)
    (hparams : paramsOk qs = true)
    (hsem : qs.compiledSql = Option.none → qs.rows = []) :
    ∃ objs, (execute [.queryset qs]).1 = .ok [.many (objs.map ResultElem.obj)] ∧
      list_queryset qs = .ok objs := by
  obtain ⟨s, hs, hiff⟩ := get_django_ok (.queryset qs) hparams
  by_cases hs0 : s = ""
  · have hnone : qs.compiledSql = Option.none := by
      have h2 := hiff.mp hs0
      simpa [wrapperCompiledSql, QuerysetWrapperType.underlying] using h2
    have hrows := hsem hnone
    refine ⟨[], ?_, ?_⟩
    · rw [hs0] at hs
      rw [execute_singleton_empty _ hs]
      rfl
    · simp [list_queryset, hrows, mapMExcept]
  · obtain ⟨objs, hobjs⟩ := mapM_direct_ok qs.modelDesc qs.rows trees hshape hwf
    have hiter := get_instances_eq_direct qs.modelDesc qs.rows trees hshape hwf hfree
    refine ⟨objs, ?_, hobjs⟩
    have hconv : convert_raw_results_to_final_queryset_results (.queryset qs)
        (fragmentPyRows (.queryset qs)) = .ok (.many (objs.map ResultElem.obj)) := by
      simp only [convert_raw_results_to_final_queryset_results, fragmentPyRows,
        iterableResults, hclass, hiter, hobjs]
    rw [execute_singleton_nonempty _ s hs hs0, hconv]

def mdC2wit : ModelDesc :=
  ⟨[⟨"id", .otherField⟩, ⟨"price", .decimalField⟩],
   .cons (.mk "store" [⟨"sid", .otherField⟩] .nil) .nil⟩

def qsC2wit : Queryset :=
  ⟨"default", plainQuery, some ("SELECT 2", []), .modelIterable, mdC2wit,
    [[("id", .int 1), ("price", .numeric ⟨5022, 2⟩), ("sid", .int 7)]]⟩

def tC2wit : SrcRow :=
  ⟨[.int 1, .numeric ⟨5022, 2⟩], .cons (.mk [.int 7] .nil) .nil⟩

theorem C2_witness :
    ∃ objs, (execute [.queryset qsC2wit]).1 = .ok [.many (objs.map ResultElem.obj)] ∧
      list_queryset qsC2wit = .ok objs :=
  C2_single_rowfetch_equals_direct_path qsC2wit [tC2wit] rfl rfl (by decide)
    (by decide) (by rfl) (by intro h; simp [qsC2wit] at h)

/-! ## C9: the decimal round trip and its depth boundary -/

def mdC9 : ModelDesc :=
  ⟨[⟨"id", .otherField⟩, ⟨"price", .decimalField⟩],
   .cons (.mk "store" [⟨"sid", .otherField⟩, ⟨"sprice", .decimalField⟩] .nil) .nil⟩

def rowC9 (d d1 : Dec) : List (String × PgValue) :=
  [("id", .int 1), ("price", .numeric d), ("sid", .int 2), ("sprice", .numeric d1)]

def tC9 (d d1 : Dec) : SrcRow :=
  ⟨[.int 1, .numeric d], .cons (.mk [.int 2, .numeric d1] .nil) .nil⟩

/-- A plain queryset with a decimal column on the entity and one on its
directly cached related entity, both of arbitrary exact value. -/
def qsC9 (d d1 : Dec) : Queryset :=
  ⟨"default", plainQuery, some ("SELECT 9", []), .modelIterable, mdC9, [rowC9 d d1]⟩

def mdC9bad : ModelDesc :=
  ⟨[⟨"id", .otherField⟩],
   .cons (.mk "store" [⟨"sid", .otherField⟩]
     (.cons (.mk "region" [⟨"rprice", .decimalField⟩] .nil) .nil)) .nil⟩

def qsC9bad : Queryset :=
  ⟨"default", plainQuery, some ("SELECT 9", []), .modelIterable, mdC9bad,
    [[("id", .int 1), ("sid", .int 2), ("rprice", .numeric ⟨5022, 2⟩)]]⟩

/-- Counterexample to C9 as stated: the related entities are not
reconstructed recursively with the decimal correction — a decimal column of
a depth-two related instance stays the driver's float, which is not the
exact decimal. -/
theorem C9_counterexample :
    (execute [.queryset qsC9bad]).1 = .ok [.many [ResultElem.obj (.mk
      [(⟨"id", .otherField⟩, .int 1)]
      (.consSome "store" (.mk [(⟨"sid", .otherField⟩, .int 2)]
        (.consSome "region"
          (.mk [(⟨"rprice", .decimalField⟩, .float ⟨5022, 2⟩)] .nil) .nil))
        .nil))]] ∧
    PyValue.float ⟨5022, 2⟩ ≠ PyValue.decimal ⟨5022, 2⟩ :=
  ⟨by decide, by decide⟩

/-- C9 (amended): for every exact-decimal column value on a fetched entity
and on each directly cached related sub-entity, the reconstructed value is
an exact decimal equal to the original stored value, not a float; the
correction reaches exactly one cache level (`C9_counterexample` shows the
recursive form is false). -/
theorem C9_decimal_exact_entity_and_direct_cache (d d1 : Dec) :
    (execute [.queryset (qsC9 d d1)]).1 = .ok [.many [ResultElem.obj (.mk
      [(⟨"id", .otherField⟩, .int 1), (⟨"price", .decimalField⟩, .decimal d)]
      (.consSome "store" (.mk
        [(⟨"sid", .otherField⟩, .int 2), (⟨"sprice", .decimalField⟩, .decimal d1)]
        .nil) .nil))]] := by
  obtain ⟨s, hs, hiff⟩ := get_django_ok (.queryset (qsC9 d d1)) rfl
  have hs0 : s ≠ "" := fun hcon => by
    have h2 := hiff.mp hcon
    simp [wrapperCompiledSql, QuerysetWrapperType.underlying, qsC9] at h2
  have hinst := instance_batch_eq_direct mdC9 (tC9 d d1) rfl rfl
  have hvals : (transformRowDict ((rowC9 d d1).map (fun cv => (cv.1, pgToPy cv.2)))).map
      Prod.snd = (flattenRow (tC9 d d1)).map (fun v => transformRowValue (pgToPy v)) := rfl
  have hconv : convert_raw_results_to_final_queryset_results (.queryset (qsC9 d d1))
      (fragmentPyRows (.queryset (qsC9 d d1))) = .ok (.many [ResultElem.obj (.mk
      [(⟨"id", .otherField⟩, .int 1), (⟨"price", .decimalField⟩, .decimal d)]
      (.consSome "store" (.mk
        [(⟨"sid", .otherField⟩, .int 2), (⟨"sprice", .decimalField⟩, .decimal d1)]
        .nil) .nil))]) := by
    simp only [convert_raw_results_to_final_queryset_results, fragmentPyRows, qsC9,
      iterableResults, get_instances_from_results_for_model_iterable, List.map_cons,
      List.map_nil, mapMExcept, hvals, hinst,
      buildObjFromRow_direct_ok mdC9 (tC9 d d1) rfl]
    rfl
  rw [execute_singleton_nonempty _ s hs hs0, hconv]

end SQFetch
